import Mathlib

/-!
Verification of the pandoc-hwpx document assembly engine.

Each definition below is a shallow embedding of a function of the
repository (files `src/pandoc_hwpx/lineseg.py` and
`src/pandoc_hwpx/converter.py`); the theorems at the end of the file
settle the specified properties of those functions.

Conventions of the embedding: Python integers become `Nat`/`Int` (the
few floating-point intermediate values of the source are modelled as
exact integer arithmetic with truncating division, which is what the
surrounding `int(...)` conversions compute up to the last ulp); Python
sets become `Finset`; Python dicts become association lists inserted at
the head and looked up by first match, which has the same observable
lookup/insert behaviour; text is a list of code points.
-/

namespace PandocHwpx

/-! ## Line-segment estimator (`src/pandoc_hwpx/lineseg.py`) -/

/-- Layout constant `PAGE_TEXT_WIDTH` from `lineseg.py`: page width minus
margins for A4, in HWPUNIT. -/
def PAGE_TEXT_WIDTH : Nat := 42520

/-- Layout constant `CHAR_HEIGHT_NORMAL` from `lineseg.py`: 10pt in HWPUNIT. -/
def CHAR_HEIGHT_NORMAL : Nat := 1000

/-- Layout constant `LINE_SPACING_PCT` from `lineseg.py`. -/
def LINE_SPACING_PCT : Nat := 160

/-- Estimated visual width of one character with code point `c`, from the
width loop of `compute_lineseg_xml`: code points above 0x2000 count a full
`charHeight`, all others half of it (floor division). -/
def charWidth (charHeight c : Nat) : Nat :=
  if 0x2000 < c then charHeight else charHeight / 2

/-- Start offsets of the second and later lines produced by the loop of
`compute_lineseg_xml`: the running width accumulates `charWidth` per
character, and when it exceeds `horzsize` while more text remains, a new
line starts at the next character offset and the accumulator resets to 0.
`i` is the offset of the first listed character, `width` the accumulated
width of the current line so far. -/
def lineStartsAux (charHeight horzsize : Nat) :
    List Nat → Nat → Nat → List Nat
  | [], _, _ => []
  | [_], _, _ => []
  | c :: d :: rest, i, width =>
    if horzsize < width + charWidth charHeight c then
      (i + 1) :: lineStartsAux charHeight horzsize (d :: rest) (i + 1) 0
    else
      lineStartsAux charHeight horzsize (d :: rest) (i + 1)
        (width + charWidth charHeight c)

/-- All segment start offsets of `compute_lineseg_xml`: offset 0 followed by
the computed line breaks.  For empty text the source returns a single
zero-offset segment through a dedicated branch, which coincides with this
definition. -/
def lineStarts (charHeight horzsize : Nat) (text : List Nat) : List Nat :=
  0 :: lineStartsAux charHeight horzsize text 0 0

/-- Flag word of segment `idx` out of `numLines` segments, from
`compute_lineseg_xml`: 393216 (first and last) for a single segment,
131072 (first) for the first of several, 262144 (last) for the last of
several, 0 for interior segments. -/
def segFlags (numLines idx : Nat) : Nat :=
  if numLines = 1 then 393216
  else if idx = 0 then 131072
  else if idx = numLines - 1 then 262144
  else 0

/-- One `hp:lineseg` entry of the emitted `hp:linesegarray`; only the
fields the properties are about (the remaining attributes emitted by the
source are constants shared by all segments of one call). -/
structure LineSeg where
  textpos : Nat
  vertpos : Int
  flags : Nat
deriving DecidableEq

/-- Builder for the segment list: segment `idx` starts at the given offset
and sits at vertical position `idx * lineHeight`. -/
def segsOf (numLines : Nat) (lineHeight : Int) :
    List Nat → Nat → List LineSeg
  | [], _ => []
  | tp :: rest, idx =>
    ⟨tp, (idx : Int) * lineHeight, segFlags numLines idx⟩ ::
      segsOf numLines lineHeight rest (idx + 1)

/-- The segment list built by `compute_lineseg_xml text charHeight
lineSpacingPct horzsize`.  `spacing` is `int(char_height *
(line_spacing_pct - 100) / 100)` (truncating division), `line_height`
is `vertsize + spacing`, and segment `idx` has `vertpos = idx *
line_height`. -/
def computeLinesegs (text : List Nat)
    (charHeight lineSpacingPct horzsize : Nat) : List LineSeg :=
  let vertsize : Int := charHeight
  let spacing : Int := ((charHeight : Int) * ((lineSpacingPct : Int) - 100)).tdiv 100
  let lineHeight : Int := vertsize + spacing
  let starts := lineStarts charHeight horzsize text
  segsOf starts.length lineHeight starts 0

/-- A segment carries the "first" flag when bit 0x20000 of its flag word is
set (true of flag words 131072 and 393216). -/
def isFirstSeg (s : LineSeg) : Bool := s.flags &&& 131072 != 0

/-- A segment carries the "last" flag when bit 0x40000 of its flag word is
set (true of flag words 262144 and 393216). -/
def isLastSeg (s : LineSeg) : Bool := s.flags &&& 262144 != 0

/-! ## Character-style resolution (`converter.py`)

The format-modifier tags of `_process_inlines` (`'BOLD'`, `'ITALIC'`,
`'UNDERLINE'`, `'STRIKEOUT'`, `'COLOR_BLUE'`, `'SUPERSCRIPT'`,
`'SUBSCRIPT'`); the Python `frozenset` of tags becomes a `Finset Fmt`.
Style IDs are numeric strings in the source; since every ID the converter
produces or consumes is a decimal numeral, they are embedded as `Nat`. -/

inductive Fmt where
  | BOLD
  | ITALIC
  | UNDERLINE
  | STRIKEOUT
  | COLOR_BLUE
  | SUPERSCRIPT
  | SUBSCRIPT
deriving DecidableEq

/-- Fixed charPr ID emitted for inline code and code blocks
(`CODE_CHAR_PR_ID` in `converter.py`). -/
def CODE_CHAR_PR_ID : Nat := 10

/-- The `(id, height, bold, font_ref)` rows of `HEADING_CHAR_PROPS` in
`converter.py`. -/
def HEADING_CHAR_PROPS : List (Nat × Nat × Bool × Nat) :=
  [(7, 2200, true, 0), (8, 1600, true, 0), (9, 1300, false, 0)]

/-- The style-resolution cache `self.char_pr_cache`: a dict from
`(base id, frozenset of modifiers)` to the allocated id, embedded as an
association list with insertion at the head and lookup by first match. -/
abbrev CharPrCache := List ((Nat × Finset Fmt) × Nat)

/-- Dict lookup in the resolution cache. -/
def cacheLookup (cache : CharPrCache) (key : Nat × Finset Fmt) : Option Nat :=
  (cache.find? (fun e => e.1 = key)).map (fun e => e.2)

/-- The mutable converter fields that `_get_builtin_char_pr_id` touches. -/
structure BuiltinState where
  charPrCache : CharPrCache
  maxCharPrId : Nat
deriving DecidableEq

/-- Embedding of `_get_builtin_char_pr_id`: an empty modifier set returns
the base id unchanged; otherwise the cache is consulted under the key
`(base, modifiers)` and on a miss the next unused id `max_char_pr_id + 1`
is allocated, recorded in the cache and returned. -/
def getBuiltinCharPrId (base : Nat) (fmts : Finset Fmt) (st : BuiltinState) :
    Nat × BuiltinState :=
  if fmts = ∅ then (base, st)
  else
    match cacheLookup st.charPrCache (base, fmts) with
    | some v => (v, st)
    | none =>
      let newId := st.maxCharPrId + 1
      (newId, ⟨((base, fmts), newId) :: st.charPrCache, newId⟩)

/-- Underline child element of a `hh:charPr` node (attributes `type`,
`shape`, `color`). -/
structure UnderlineAttrs where
  ulType : String
  shape : String
  color : String
deriving DecidableEq

/-- Strikeout child element of a `hh:charPr` node. -/
structure StrikeoutAttrs where
  shape : String
  color : String
deriving DecidableEq

/-- A `hh:charPr` node of the header tree, restricted to the id and the
children/attributes `_get_format_char_pr_id` clones and modifies.  An
absent child element is `none` / `false`. -/
structure CharPr where
  id : Nat
  bold : Bool
  italic : Bool
  underline : Option UnderlineAttrs
  strikeout : Option StrikeoutAttrs
  textColor : String
  supscript : Bool
  subscript : Bool
deriving DecidableEq

/-- Application of the modifier set to a cloned charPr node, in the order
of `_get_format_char_pr_id`: BOLD/ITALIC ensure the child exists, UNDERLINE
forces a bottom/solid/black underline, STRIKEOUT a solid/black strikeout,
COLOR_BLUE sets the text color and tints an existing underline, and
SUPERSCRIPT clears subscript (respectively SUBSCRIPT clears superscript,
with SUPERSCRIPT taking precedence via the `elif`). -/
def applyFormats (node : CharPr) (fmts : Finset Fmt) : CharPr :=
  let node := if Fmt.BOLD ∈ fmts then { node with bold := true } else node
  let node := if Fmt.ITALIC ∈ fmts then { node with italic := true } else node
  let node :=
    if Fmt.UNDERLINE ∈ fmts then
      { node with underline := some ⟨"BOTTOM", "SOLID", "#000000"⟩ }
    else node
  let node :=
    if Fmt.STRIKEOUT ∈ fmts then
      { node with strikeout := some ⟨"SOLID", "#000000"⟩ }
    else node
  let node :=
    if Fmt.COLOR_BLUE ∈ fmts then
      { node with
        textColor := "#0000FF",
        underline := node.underline.map (fun u => { u with color := "#0000FF" }) }
    else node
  let node :=
    if Fmt.SUPERSCRIPT ∈ fmts then
      { node with subscript := false, supscript := true }
    else if Fmt.SUBSCRIPT ∈ fmts then
      { node with supscript := false, subscript := true }
    else node
  node

/-- The mutable converter fields that `_get_format_char_pr_id` touches in
reference mode: the `hh:charPr` children of the header's
`hh:charProperties` element in document order, the cache, and the maximum
used charPr id.  (After a successful `_parse_reference_header` the header
root is always present, so it is represented by the node list itself.) -/
structure RefState where
  charPrs : List CharPr
  charPrCache : CharPrCache
  maxCharPrId : Nat
deriving DecidableEq

/-- The ElementTree lookup `.//hh:charPr[@id="i"]`: first charPr node in
document order with the given id. -/
def findCharPr (nodes : List CharPr) (i : Nat) : Option CharPr :=
  nodes.find? (fun n => n.id = i)

/-- Embedding of `_get_format_char_pr_id` (reference mode): empty modifier
set returns the base id; otherwise cache lookup; on a miss the base node
(or the node with id 0 as fallback) is located — if neither exists the
base id is returned with no allocation — then the node is deep-copied,
given id `max_char_pr_id + 1`, modified by the formats, appended to
`charProperties`, cached and returned. -/
def getFormatCharPrId (base : Nat) (fmts : Finset Fmt) (st : RefState) :
    Nat × RefState :=
  if fmts = ∅ then (base, st)
  else
    match cacheLookup st.charPrCache (base, fmts) with
    | some v => (v, st)
    | none =>
      match (findCharPr st.charPrs base).orElse (fun _ => findCharPr st.charPrs 0) with
      | none => (base, st)
      | some baseNode =>
        let newId := st.maxCharPrId + 1
        let newNode := applyFormats { baseNode with id := newId } fmts
        (newId,
          { charPrs := st.charPrs ++ [newNode],
            charPrCache := ((base, fmts), newId) :: st.charPrCache,
            maxCharPrId := newId })

/-- Cache well-formedness, an invariant of every reachable converter state:
every cached id is at most the id high-water mark, and distinct cache keys
hold distinct ids.  It holds for the empty cache a conversion starts with
and is preserved by both resolvers, as proved below. -/
def CacheWF (cache : CharPrCache) (maxId : Nat) : Prop :=
  (∀ e ∈ cache, e.2 ≤ maxId) ∧
  (∀ e1 ∈ cache, ∀ e2 ∈ cache, e1.2 = e2.2 → e1.1 = e2.1)

/-- The degenerate reference state whose header has no charPr nodes at
all: template-mode parsing accepts such a header. -/
def emptyHeaderRefState : RefState :=
  { charPrs := [], charPrCache := [], maxCharPrId := 0 }

/-- The state produced by the allocation branch of `_get_format_char_pr_id`
when it clones `baseNode` for the key `(b, fmts)`: the modified clone is
appended to the charPr table, the cache gains the new binding, and the id
high-water mark advances. -/
def refAllocState (rst : RefState) (b : Nat) (fmts : Finset Fmt) (baseNode : CharPr) :
    RefState :=
  ⟨rst.charPrs ++ [applyFormats { baseNode with id := rst.maxCharPrId + 1 } fmts],
    ((b, fmts), rst.maxCharPrId + 1) :: rst.charPrCache,
    rst.maxCharPrId + 1⟩

/-- A built-in-mode state as set up by `_init_default_styles`: empty cache
and id high-water mark 10. -/
def freshBuiltinState : BuiltinState :=
  { charPrCache := [], maxCharPrId := 10 }

/-- A reference state whose header holds a single default charPr node with
id 0, as any usable template provides. -/
def smallRefState : RefState :=
  { charPrs := [⟨0, false, false, none, none, "#000000", false, false⟩],
    charPrCache := [],
    maxCharPrId := 5 }

/-! ## Table layout engine (`_handle_table` in `converter.py`) -/

/-- A table cell as consumed by the placement loop of `_handle_table`: the
declared row span and column span (`cell[2]` and `cell[3]` of the Pandoc
cell, both defaulting to 1). -/
structure TableCell where
  rowSpan : Nat
  colSpan : Nat
deriving DecidableEq

/-- The grid coordinates claimed by a cell whose top-left corner is at
`(rowAddr, colAddr)`: all `(rowAddr + r, colAddr + c)` for `r < rowSpan`
and `c < colSpan`, exactly the coordinates added to `occupied_cells` by
the nested marking loops. -/
def cellRect (rowAddr colAddr : Nat) (cell : TableCell) : Finset (Nat × Nat) :=
  (Finset.range cell.rowSpan ×ˢ Finset.range cell.colSpan).image
    (fun rc => (rowAddr + rc.1, colAddr + rc.2))

/-- The cursor loop `while (curr_row_addr, curr_col_addr) in occupied_cells:
curr_col_addr += 1`, given explicit fuel.  Fuel `occ.card + 1` always
suffices to reach the first free column (`skipOccupied_not_mem` below), so
with that fuel this function computes what the unbounded source loop
computes. -/
def skipOccupied (occ : Finset (Nat × Nat)) (row : Nat) : Nat → Nat → Nat
  | col, 0 => col
  | col, fuel + 1 =>
    if (row, col) ∈ occ then skipOccupied occ row (col + 1) fuel else col

/-- A placed cell: the actual row and column address assigned by the
engine together with the declared spans (the `cellAddr`/`cellSpan` data
emitted into the `hp:tc` element). -/
structure Placement where
  rowAddr : Nat
  colAddr : Nat
  cell : TableCell
deriving DecidableEq

/-- The coordinates claimed by one placement. -/
def placeRect (p : Placement) : Finset (Nat × Nat) :=
  cellRect p.rowAddr p.colAddr p.cell

/-- Placement of the cells of one row, from the per-row loop of
`_handle_table`: the column cursor advances past occupied coordinates, the
first free coordinate becomes the cell's actual column, the claimed
rectangle is marked occupied, and the cursor then advances by the column
span. -/
def placeRowCells (row : Nat) :
    Finset (Nat × Nat) → Nat → List TableCell →
      List Placement × Finset (Nat × Nat)
  | occ, _, [] => ([], occ)
  | occ, col, cell :: rest =>
    let c := skipOccupied occ row col (occ.card + 1)
    let pr := placeRowCells row (occ ∪ cellRect row c cell) (c + cell.colSpan) rest
    (⟨row, c, cell⟩ :: pr.1, pr.2)

/-- Placement of all rows: each row restarts the column cursor at 0 and
the row address advances by one per row. -/
def placeRows :
    Finset (Nat × Nat) → Nat → List (List TableCell) →
      List Placement × Finset (Nat × Nat)
  | occ, _, [] => ([], occ)
  | occ, row, cells :: rest =>
    let pr := placeRowCells row occ 0 cells
    let pr2 := placeRows pr.2 (row + 1) rest
    (pr.1 ++ pr2.1, pr2.2)

/-- The full table layout of `_handle_table`: all rows placed starting
from the empty occupied-cell set, returning every placement and the final
occupied-cell set. -/
def placeTable (rows : List (List TableCell)) :
    List Placement × Finset (Nat × Nat) :=
  placeRows ∅ 0 rows

/-- Union of the coordinates claimed by a list of placements. -/
def unionRects (ps : List Placement) : Finset (Nat × Nat) :=
  ps.foldr (fun p acc => placeRect p ∪ acc) ∅

/-- Well-formedness check for the cells of one row, threading the same
occupied set as the placement loop: every cell must declare positive
spans, its claimed rectangle must stay inside the `nRows x nCols` grid and
must not collide with any already-occupied coordinate. -/
def checkRowCells (nRows nCols row : Nat) :
    Finset (Nat × Nat) → Nat → List TableCell → Bool × Finset (Nat × Nat)
  | occ, _, [] => (true, occ)
  | occ, col, cell :: rest =>
    let c := skipOccupied occ row col (occ.card + 1)
    let rect := cellRect row c cell
    let ok := decide (1 ≤ cell.rowSpan) && decide (1 ≤ cell.colSpan) &&
      decide (row + cell.rowSpan ≤ nRows) && decide (c + cell.colSpan ≤ nCols) &&
      decide (occ ∩ rect = ∅)
    let cr := checkRowCells nRows nCols row (occ ∪ rect) (c + cell.colSpan) rest
    (ok && cr.1, cr.2)

/-- Well-formedness check for all rows: every row passes `checkRowCells`
and, once its cells are placed, completely fills its `nCols` columns. -/
def checkRows (nRows nCols : Nat) :
    Finset (Nat × Nat) → Nat → List (List TableCell) → Bool × Finset (Nat × Nat)
  | occ, _, [] => (true, occ)
  | occ, row, cells :: rest =>
    let cr := checkRowCells nRows nCols row occ 0 cells
    let rowOk := decide (∀ c ∈ Finset.range nCols, (row, c) ∈ cr.2)
    let cr2 := checkRows nRows nCols cr.2 (row + 1) rest
    (cr.1 && rowOk && cr2.1, cr2.2)

/-- A declared grid is well-formed for `nRows x nCols` when it has exactly
`nRows` rows and every cell passes the checker. -/
def wellFormedTable (nRows nCols : Nat) (rows : List (List TableCell)) : Bool :=
  decide (rows.length = nRows) && (checkRows nRows nCols ∅ 0 rows).1

/-- Counterexample grid: row 0 declares a 1x1 cell and a row-spanning 2x1
cell; row 1 declares a single column-spanning 1x2 cell. -/
def overlapRows : List (List TableCell) :=
  [[⟨1, 1⟩, ⟨2, 1⟩], [⟨1, 2⟩]]

/-- The spec's scenario grid: a 2x2 table whose first row is one cell with
column span 2 and whose second row has two normal cells. -/
def specScenarioRows : List (List TableCell) :=
  [[⟨1, 2⟩], [⟨1, 1⟩, ⟨1, 1⟩]]

/-! ## Inline processing (`_process_inlines` in `converter.py`),
reference mode, restricted to the emitted charPrIDRef values -/

/-- Inline elements of the Pandoc AST handled by `_process_inlines`,
restricted to the kinds that drive character-style references (the
omitted kinds — quoted text, math, images, footnotes, spans — either
recurse with unchanged formats or delegate to other emitters). -/
inductive Inline where
  | str (s : String)
  | space
  | softBreak
  | lineBreak
  | strong (content : List Inline)
  | emph (content : List Inline)
  | underline (content : List Inline)
  | strikeout (content : List Inline)
  | superscript (content : List Inline)
  | subscript (content : List Inline)
  | code (s : String)
  | link (content : List Inline) (target : String)

mutual

/-- One inline element of reference-mode `_process_inlines`: the list of
charPrIDRef values emitted on the produced `hp:run` elements, threading
the style-registry state.  Text-like runs resolve the active format set
through `_get_format_char_pr_id`; the formatting wrappers recurse with the
extended format set; a code span emits the fixed `CODE_CHAR_PR_ID` with no
resolver call; a link emits its field-begin run (charPrIDRef 0), the inner
runs with UNDERLINE and COLOR_BLUE added, and its field-end run
(charPrIDRef 0). -/
def processInlineRef (base : Nat) (fmts : Finset Fmt) (st : RefState) :
    Inline → List Nat × RefState
  | .str _ =>
    let r := getFormatCharPrId base fmts st
    ([r.1], r.2)
  | .space =>
    let r := getFormatCharPrId base fmts st
    ([r.1], r.2)
  | .softBreak =>
    let r := getFormatCharPrId base fmts st
    ([r.1], r.2)
  | .lineBreak =>
    let r := getFormatCharPrId base fmts st
    ([r.1], r.2)
  | .strong content => processInlinesRef base (insert Fmt.BOLD fmts) st content
  | .emph content => processInlinesRef base (insert Fmt.ITALIC fmts) st content
  | .underline content => processInlinesRef base (insert Fmt.UNDERLINE fmts) st content
  | .strikeout content => processInlinesRef base (insert Fmt.STRIKEOUT fmts) st content
  | .superscript content =>
    processInlinesRef base (insert Fmt.SUPERSCRIPT fmts) st content
  | .subscript content => processInlinesRef base (insert Fmt.SUBSCRIPT fmts) st content
  | .code _ => ([CODE_CHAR_PR_ID], st)
  | .link content _ =>
    let inner := processInlinesRef base
      (insert Fmt.UNDERLINE (insert Fmt.COLOR_BLUE fmts)) st content
    (0 :: inner.1 ++ [0], inner.2)

/-- A list of inline elements, emitted left to right with the state
threaded through. -/
def processInlinesRef (base : Nat) (fmts : Finset Fmt) (st : RefState) :
    List Inline → List Nat × RefState
  | [] => ([], st)
  | i :: rest =>
    let r1 := processInlineRef base fmts st i
    let r2 := processInlinesRef base fmts r1.2 rest
    (r1.1 ++ r2.1, r2.2)

end

/-- The charPr ids present in the finalized reference-mode header:
`_update_reference_header` only refreshes the `itemCnt` attributes and
serializes the tree, so the id list is exactly that of the current charPr
nodes. -/
def refHeaderFinalCharPrIds (rst : RefState) : List Nat :=
  rst.charPrs.map (fun n => n.id)

/-- A reference template header whose charPr table holds exactly the ids
0, 1 and 2 (a small but realistic template). -/
def threeCharPrRefState : RefState :=
  { charPrs :=
      [⟨0, false, false, none, none, "#000000", false, false⟩,
       ⟨1, false, false, none, none, "#000000", false, false⟩,
       ⟨2, false, false, none, none, "#000000", false, false⟩],
    charPrCache := [],
    maxCharPrId := 2 }

/-! ## Reference-header parsing and fallback
(`_parse_reference_header`, `_init_default_styles` in `converter.py`) -/

/-- Numeric value of a digit list read left to right. -/
def digitsToNat (l : List Char) : Nat :=
  l.foldl (fun acc c => acc * 10 + (c.toNat - 48)) 0

/-- Python `int(s)` on a decimal string: an optional minus sign followed
by at least one digit; anything else raises `ValueError`. -/
def parseInt (s : String) : Except String Int :=
  match s.data with
  | [] => .error "invalid literal for int"
  | '-' :: rest =>
    if rest ≠ [] ∧ rest.all Char.isDigit then .ok (-(digitsToNat rest : Int))
    else .error "invalid literal for int"
  | l =>
    if l.all Char.isDigit then .ok ((digitsToNat l : Nat) : Int)
    else .error "invalid literal for int"

/-- Python `int(node.get(attr, 0))`: a missing attribute contributes 0, a
present one is parsed and may raise. -/
def parseIdAttr (a : Option String) : Except String Int :=
  match a with
  | none => .ok 0
  | some s => parseInt s

/-- The id-maximum loops of `_parse_reference_header`: fold over the `id`
attributes keeping the running maximum, propagating the first `int`
failure. -/
def foldMaxIds (cur : Int) : List (Option String) → Except String Int
  | [] => .ok cur
  | a :: rest => do
    let v ← parseIdAttr a
    foldMaxIds (if cur < v then v else cur) rest

/-- A `hh:charPr` node as seen by the reference parser: only its raw `id`
attribute matters here. -/
structure RawCharPr where
  id : Option String

/-- A `hh:paraPr` node: its raw `id` attribute and the `level` attributes
of its OUTLINE-typed `hh:heading` children (headings of another type, or
without a `level` attribute, are skipped by the source before parsing). -/
structure RawParaPr where
  id : Option String
  outlineLevels : List String

/-- A `hh:style` node: the three raw attributes the parser reads. -/
structure RawStyle where
  id : Option String
  paraPrIDRef : Option String
  charPrIDRef : Option String

/-- A `hh:borderFill` node: only its raw `id` attribute is read. -/
structure RawBorderFill where
  id : Option String

/-- The parts of a reference `header.xml` that
`_parse_reference_header` visits. -/
structure RawHeader where
  charPrs : List RawCharPr
  paraPrs : List RawParaPr
  styles : List RawStyle
  borderFills : List RawBorderFill

/-- A supplied header document: either unparseable markup
(`ET.fromstring` raises) or a parsed element tree. -/
inductive HeaderXml where
  | malformed
  | parsed (raw : RawHeader)

/-- The `level_to_para_pr` accumulation for one paraPr node: each OUTLINE
level string is `int`-parsed (possibly failing) and the first paraPr
claiming a level wins. -/
def addLevels (pid : Option String) :
    List (Int × Option String) → List String →
      Except String (List (Int × Option String))
  | acc, [] => .ok acc
  | acc, lstr :: rest => do
    let lv ← parseInt lstr
    let acc2 := if (acc.find? (fun e => e.1 = lv)).isSome then acc
      else acc ++ [(lv, pid)]
    addLevels pid acc2 rest

/-- The outer `level_to_para_pr` loop over all paraPr nodes in document
order. -/
def collectOutlineLevels :
    List (Int × Option String) → List RawParaPr →
      Except String (List (Int × Option String))
  | acc, [] => .ok acc
  | acc, p :: rest => do
    let acc2 ← addLevels p.id acc p.outlineLevels
    collectOutlineLevels acc2 rest

/-- The `para_pr_to_style_info` map: for each style node in document
order, the first style referencing a given paraPr id wins; the stored
data is `(paraPrIDRef, style id, charPrIDRef)` with raw attributes. -/
def paraPrToStyleInfo (styles : List RawStyle) :
    List (Option String × Option String × Option String) :=
  styles.foldl (fun acc s =>
    if (acc.find? (fun e => e.1 = s.paraPrIDRef)).isSome then acc
    else acc ++ [(s.paraPrIDRef, s.id, s.charPrIDRef)]) []

/-- The combination loop: each discovered outline level whose paraPr id
appears in the style info yields a `dynamic_style_map` entry
`(level, style id, paraPr id, charPr id)` with the raw attributes. -/
def combineDynamicMap (levels : List (Int × Option String))
    (info : List (Option String × Option String × Option String)) :
    List (Int × Option String × Option String × Option String) :=
  levels.foldl (fun acc e =>
    match info.find? (fun i => i.1 = e.2) with
    | some i => acc ++ [(e.1, i.2.1, e.2, i.2.2)]
    | none => acc) []

/-- The normal-style lookup: the style with id "0" if present, else the
first style node, else nothing. -/
def findNormalStyle (styles : List RawStyle) : Option RawStyle :=
  match styles.find? (fun s => s.id = some "0") with
  | some s => some s
  | none => styles.head?

/-- Everything `_parse_reference_header` extracts on success. -/
structure ParsedStyles where
  maxCharPrId : Int
  maxParaPrId : Int
  normalStyleId : String
  normalParaPrId : String
  normalCharPrId : String
  dynamicStyleMap : List (Int × Option String × Option String × Option String)
  tableBorderFillId : Int
deriving DecidableEq

/-- The body of `_parse_reference_header` as a staged computation: any
stage may fail (raising in the source), in which case the surrounding
`except` clause takes over. -/
def parseReferenceHeader (h : HeaderXml) : Except String ParsedStyles :=
  match h with
  | .malformed => .error "xml syntax error"
  | .parsed raw => do
    let maxChar ← foldMaxIds 0 (raw.charPrs.map (fun c => c.id))
    let maxPara ← foldMaxIds 0 (raw.paraPrs.map (fun p => p.id))
    let normals :=
      match findNormalStyle raw.styles with
      | some s => (s.id.getD "0", s.paraPrIDRef.getD "0", s.charPrIDRef.getD "0")
      | none => ("0", "0", "0")
    let levels ← collectOutlineLevels [] raw.paraPrs
    let dyn := combineDynamicMap levels (paraPrToStyleInfo raw.styles)
    let maxBf ← foldMaxIds 0 (raw.borderFills.map (fun b => b.id))
    .ok { maxCharPrId := maxChar, maxParaPrId := maxPara,
          normalStyleId := normals.1, normalParaPrId := normals.2.1,
          normalCharPrId := normals.2.2, dynamicStyleMap := dyn,
          tableBorderFillId := maxBf + 1 }

/-- The style configuration observable after `_load_template`. -/
structure StyleSetup where
  useReference : Bool
  warned : Bool
  normalStyleId : String
  normalParaPrId : String
  normalCharPrId : String
  maxCharPrId : Int
  dynamicStyleMap : List (Int × Option String × Option String × Option String)
deriving DecidableEq

/-- The id high-water mark of `_init_default_styles`: the maximum heading
charPr id, then the code charPr id (10). -/
def defaultMaxCharPrId : Nat :=
  max ((HEADING_CHAR_PROPS.map (fun c => c.1)).foldl max 0) CODE_CHAR_PR_ID

/-- The built-in default style mappings of `_init_default_styles`, with
`warned` recording whether the fallback warning was printed on the way
here. -/
def initDefaultStylesSetup (warned : Bool) : StyleSetup :=
  { useReference := false, warned := warned,
    normalStyleId := "0", normalParaPrId := "0", normalCharPrId := "0",
    maxCharPrId := (defaultMaxCharPrId : Int),
    dynamicStyleMap := [] }

/-- Reference-mode header loading with the `except` clause of
`_parse_reference_header`: a successful parse keeps reference mode; any
failure prints a warning, clears `use_reference` and installs the built-in
defaults, and the conversion continues (the function is total). -/
def loadHeaderStyles (h : HeaderXml) : StyleSetup :=
  match parseReferenceHeader h with
  | .ok p =>
    { useReference := true, warned := false,
      normalStyleId := p.normalStyleId, normalParaPrId := p.normalParaPrId,
      normalCharPrId := p.normalCharPrId, maxCharPrId := p.maxCharPrId,
      dynamicStyleMap := p.dynamicStyleMap }
  | .error _ => initDefaultStylesSetup true

/-- A header whose first charPr carries a non-numeric id attribute, so
template parsing fails. -/
def badIdHeader : HeaderXml :=
  .parsed { charPrs := [⟨some "abc"⟩], paraPrs := [], styles := [],
            borderFills := [] }

/-! ## Converter construction (`__init__` and `_load_template`) -/

/-- The packaged built-in blank template `templates/blank.hwpx`. -/
def builtinBlankPath : String := "templates/blank.hwpx"

/-- The two fields of `__init__` that decide the style mode and the
archive source. -/
structure InitChoice where
  useReference : Bool
  templatePath : String
deriving DecidableEq

/-- Template-path selection of `__init__`: `use_reference` is set from
the mere presence of the `reference_path` argument, while the template
path falls back to the packaged blank template whenever no file exists at
the supplied path. -/
def chooseTemplate (referencePath : Option String) (existingPaths : List String) :
    InitChoice :=
  { useReference := referencePath.isSome,
    templatePath :=
      match referencePath with
      | some p => if existingPaths.contains p then p else builtinBlankPath
      | none => builtinBlankPath }

/-- Which style-discovery branch `_load_template` takes after reading the
chosen template: reference mode parses the template's own header,
built-in mode installs the default mappings. -/
inductive StyleInitBranch where
  | parseReference (header : HeaderXml)
  | builtinDefaults

/-- The dispatch at the end of `_load_template`, reading the header of
the chosen template from the archive contents. -/
def loadTemplateBranch (choice : InitChoice) (headerOf : String → HeaderXml) :
    StyleInitBranch :=
  if choice.useReference then .parseReference (headerOf choice.templatePath)
  else .builtinDefaults

/-! ## Image sizing and embedding
(`_handle_image`, `_resolve_image_path`, `_write_hwpx` in `converter.py`) -/

/-- POSIX `os.path.isabs`: the path starts with a slash. -/
def isAbsPath (p : String) : Bool :=
  match p.data with
  | [] => false
  | c :: _ => c = '/'

/-- Embedding of `os.path.join dir p` for the relative target paths the source joins. -/
def pathJoin (dir p : String) : String := dir ++ "/" ++ p

/-- Embedding of `os.path.abspath` relative to the working directory. -/
def absPath (cwd p : String) : String :=
  if isAbsPath p then p else pathJoin cwd p

/-- Embedding of `_resolve_image_path` over an abstract set of existing
paths: an absolute existing target wins, then the target joined to the
input directory, then the target as given (returned absolutized); when
nothing exists the result is `none`. -/
def resolveImagePath (existingPaths : List String) (inputDir cwd target : String) :
    Option String :=
  if isAbsPath target && existingPaths.contains target then some target
  else if existingPaths.contains (pathJoin inputDir target) then
    some (pathJoin inputDir target)
  else if existingPaths.contains target then some (absPath cwd target)
  else none

/-- Exact rational value of the source's float constant `LUNIT_PER_PX =
(25.4 * 283.465) / 96.0 = 7200.011 / 96`, as numerator over
denominator scaled by 1000. -/
def LUNIT_PER_PX_NUM : Nat := 7200011

/-- Denominator of the exact `LUNIT_PER_PX` rational. -/
def LUNIT_PER_PX_DEN : Nat := 96000

/-- The dimension computation of `_handle_image`.  `pixels` is the source
image's pixel size when Pillow is importable, the resolved path exists and
`Image.open` succeeds; it is `none` otherwise, which runs the
requested-or-default fallback (8504 HWPUNIT each).  When pixels are known,
a missing requested dimension is filled from the pixel aspect ratio
(`int(w * px_h / max(px_w, 1))` and symmetrically); finally a width above
the page text width is clamped to it with the height scaled by the same
ratio.  The source computes the two ratios in floating point; this
embedding computes them as exact truncating rational arithmetic. -/
def computeImageDims (wParsed hParsed : Option Nat)
    (pixels : Option (Nat × Nat)) : Nat × Nat :=
  let wh :=
    match pixels with
    | some (pxW, pxH) =>
      match wParsed, hParsed with
      | some w, some hgt => (w, hgt)
      | some w, none => (w, w * pxH / max pxW 1)
      | none, some hgt => (hgt * pxW / max pxH 1, hgt)
      | none, none =>
        (pxW * LUNIT_PER_PX_NUM / LUNIT_PER_PX_DEN,
          pxH * LUNIT_PER_PX_NUM / LUNIT_PER_PX_DEN)
    | none => (wParsed.getD 8504, hParsed.getD 8504)
  if PAGE_TEXT_WIDTH < wh.1 then
    (PAGE_TEXT_WIDTH, wh.2 * PAGE_TEXT_WIDTH / wh.1)
  else wh

/-- The target-extension classification of `_handle_image` (SVG is noted
but left with the default "png" extension, its bytes copied unchanged). -/
def imageExt (targetUrl : String) : String :=
  let lower := targetUrl.toLower
  if lower.endsWith ".jpg" || lower.endsWith ".jpeg" then "jpg"
  else if lower.endsWith ".gif" then "gif"
  else if lower.endsWith ".bmp" then "bmp"
  else "png"

/-- The record appended to `self.images` by `_handle_image`, consumed at
package-assembly time. -/
structure ImageRec where
  binId : String
  path : String
  resolvedPath : Option String
  ext : String
deriving DecidableEq

/-- The embedded-object node emitted by `_handle_image`, restricted to the
data the properties are about: the computed dimensions (written as
`orgSz`, `curSz`, the image rectangle and the shape size) and the binary
reference. -/
structure PicNode where
  width : Nat
  height : Nat
  binaryItemIDRef : String
deriving DecidableEq

/-- Embedding of `_handle_image`: the path is resolved, the pixel size is
read when possible (`readPixels` models the Pillow collaborator, `none`
meaning unavailable or unreadable), the dimensions are computed, and the
node and image record are produced — there is no failure path. -/
def handleImage (existingPaths : List String) (inputDir cwd : String)
    (targetUrl : String) (wParsed hParsed : Option Nat)
    (readPixels : String → Option (Nat × Nat)) (binId : String) :
    PicNode × ImageRec :=
  let imagePath := resolveImagePath existingPaths inputDir cwd targetUrl
  let pixels :=
    match imagePath with
    | some p => if existingPaths.contains p then readPixels p else none
    | none => none
  let wh := computeImageDims wParsed hParsed pixels
  (⟨wh.1, wh.2, binId⟩, ⟨binId, targetUrl, imagePath, imageExt targetUrl⟩)

/-- The image-embedding loop at the end of `_write_hwpx`: every image
whose resolved path exists contributes a `BinData/<id>.<ext>` entry; the
others produce a warning line and no entry. -/
def embedImages (existingPaths : List String) (images : List ImageRec) :
    List String × List String :=
  images.foldr (fun img acc =>
    match img.resolvedPath with
    | some r =>
      if existingPaths.contains r then
        (("BinData/" ++ img.binId ++ "." ++ img.ext) :: acc.1, acc.2)
      else (acc.1, img.path :: acc.2)
    | none => (acc.1, img.path :: acc.2)) ([], [])

/-! ## Archive finalization (`_write_hwpx` in `converter.py`) -/

/-- An assembled archive: entry names with their bytes. -/
abbrev Archive := List (String × String)

/-- An abstract filesystem from paths to archive contents: writes shadow
older bindings, deletion removes every binding of a path. -/
abbrev FileSys := List (String × Archive)

/-- Content at a path, newest binding first. -/
def fsLookup (fs : FileSys) (p : String) : Option Archive :=
  (fs.find? (fun e => e.1 = p)).map (fun e => e.2)

/-- Writing a file. -/
def fsWrite (fs : FileSys) (p : String) (a : Archive) : FileSys := (p, a) :: fs

/-- Embedding of `os.unlink`: every binding of the path disappears. -/
def fsErase (fs : FileSys) (p : String) : FileSys :=
  fs.filter (fun e => ¬ e.1 = p)

/-- Embedding of `shutil.move src dst`: the content at `src` replaces whatever is at
`dst` and `src` disappears. -/
def fsMove (fs : FileSys) (src dst : String) : FileSys :=
  match fsLookup fs src with
  | some a => fsWrite (fsErase fs src) dst a
  | none => fs

/-- The entry-writing loop of `_write_hwpx`: each named entry either
yields its bytes or fails (an I/O exception while reading the template or
compressing); the loop stops at the first failure, returning the overall
outcome together with the archive content written so far. -/
def buildArchive :
    List (String × Except String String) → Except String Archive × Archive
  | [] => (.ok [], [])
  | (n, .ok c) :: rest =>
    let r := buildArchive rest
    (r.1.map (fun a => (n, c) :: a), (n, c) :: r.2)
  | (_, .error e) :: _ => (.error e, [])

/-- Embedding of `_write_hwpx`: the archive is written to a fresh
temporary file; on success the temporary file is moved over the
destination; on any failure the temporary file is unlinked and the
exception re-raised, the destination untouched. -/
def writeHwpx (fs : FileSys) (tmpPath outputPath : String)
    (entries : List (String × Except String String)) :
    Except String Unit × FileSys :=
  let built := buildArchive entries
  let fs1 := fsWrite fs tmpPath built.2
  match built.1 with
  | .ok _ => (.ok (), fsMove fs1 tmpPath outputPath)
  | .error e => (.error e, fsErase fs1 tmpPath)

end PandocHwpx

namespace PandocHwpx

/-! ## Helper lemmas for the line-segment estimator -/

theorem lineStartsAux_lt (ch hz : Nat) :
    ∀ (l : List Nat) (i w x : Nat),
      x ∈ lineStartsAux ch hz l i w → i < x := by
  intro l
  induction l with
  | nil => intro i w x hx; simp [lineStartsAux] at hx
  | cons c rest ih =>
    intro i w x hx
    cases rest with
    | nil => simp [lineStartsAux] at hx
    | cons d rest' =>
      rw [lineStartsAux] at hx
      split at hx
      · rcases List.mem_cons.mp hx with h | h
        · omega
        · have := ih (i + 1) 0 x h; omega
      · have := ih (i + 1) (w + charWidth ch c) x hx; omega

theorem lineStartsAux_chain (ch hz : Nat) :
    ∀ (l : List Nat) (i w : Nat),
      (lineStartsAux ch hz l i w).Chain' (· < ·) := by
  intro l
  induction l with
  | nil => intro i w; simp [lineStartsAux]
  | cons c rest ih =>
    intro i w
    cases rest with
    | nil => simp [lineStartsAux]
    | cons d rest' =>
      rw [lineStartsAux]
      split
      · refine List.chain'_cons'.mpr ⟨?_, ih (i + 1) 0⟩
        intro y hy
        exact lineStartsAux_lt ch hz (d :: rest') (i + 1) 0 y
          (List.mem_of_mem_head? hy)
      · exact ih (i + 1) (w + charWidth ch c)

theorem lineStarts_chain (ch hz : Nat) (text : List Nat) :
    (lineStarts ch hz text).Chain' (· < ·) := by
  refine List.chain'_cons'.mpr ⟨?_, lineStartsAux_chain ch hz text 0 0⟩
  intro y hy
  exact lineStartsAux_lt ch hz text 0 0 y (List.mem_of_mem_head? hy)

theorem segsOf_map_textpos (n : Nat) (lh : Int) :
    ∀ (l : List Nat) (idx : Nat),
      (segsOf n lh l idx).map (fun s => s.textpos) = l := by
  intro l
  induction l with
  | nil => intro idx; simp [segsOf]
  | cons tp rest ih => intro idx; simp [segsOf, ih]

theorem segsOf_length (n : Nat) (lh : Int) :
    ∀ (l : List Nat) (idx : Nat), (segsOf n lh l idx).length = l.length := by
  intro l
  induction l with
  | nil => intro idx; simp [segsOf]
  | cons tp rest ih => intro idx; simp [segsOf, ih]

theorem isFirstSeg_mk (tp : Nat) (vp : Int) (n idx : Nat) :
    isFirstSeg ⟨tp, vp, segFlags n idx⟩ =
      (decide (n = 1) || decide (idx = 0)) := by
  unfold isFirstSeg segFlags
  by_cases h1 : n = 1
  · simp [h1]
  · by_cases h0 : idx = 0
    · simp [h1, h0]
    · by_cases hl : idx = n - 1
      · have hn1 : n - 1 ≠ 0 := fun h => h0 (by omega)
        simp [h1, h0, hl, hn1]
        decide
      · simp [h1, h0, hl]

theorem isLastSeg_mk (tp : Nat) (vp : Int) (n idx : Nat) :
    isLastSeg ⟨tp, vp, segFlags n idx⟩ =
      (decide (n = 1) || decide (idx = n - 1 ∧ idx ≠ 0)) := by
  unfold isLastSeg segFlags
  by_cases h1 : n = 1
  · simp [h1]
  · by_cases h0 : idx = 0
    · simp [h1, h0]
      decide
    · by_cases hl : idx = n - 1
      · have hn1 : n - 1 ≠ 0 := fun h => h0 (by omega)
        simp [h1, h0, hl, hn1]
      · simp [h1, h0, hl]

theorem segsOf_countP_first_zero (n : Nat) (lh : Int) (hn : n ≠ 1) :
    ∀ (l : List Nat) (idx : Nat), 1 ≤ idx →
      (segsOf n lh l idx).countP isFirstSeg = 0 := by
  intro l
  induction l with
  | nil => intro idx _; simp [segsOf]
  | cons tp rest ih =>
    intro idx hidx
    rw [segsOf, List.countP_cons, ih (idx + 1) (by omega)]
    rw [isFirstSeg_mk]
    simp [hn]
    omega

theorem segsOf_countP_last_one (n : Nat) (lh : Int) :
    ∀ (l : List Nat) (idx : Nat), idx + l.length = n → l ≠ [] →
      (segsOf n lh l idx).countP isLastSeg = 1 := by
  intro l
  induction l with
  | nil => intro idx _ hne; exact absurd rfl hne
  | cons tp rest ih =>
    intro idx hlen _
    rw [segsOf, List.countP_cons, isLastSeg_mk]
    cases rest with
    | nil =>
      rw [segsOf]
      simp only [List.countP_nil]
      simp only [List.length_cons, List.length_nil] at hlen
      by_cases h1 : n = 1
      · simp [h1]
      · have hidx : idx = n - 1 := by omega
        have hidx0 : idx ≠ 0 := by omega
        have hn1 : n - 1 ≠ 0 := by omega
        simp [h1, hidx, hidx0, hn1]
    | cons tp' rest' =>
      rw [ih (idx + 1) (by simp at hlen ⊢; omega) (by simp)]
      simp only [List.length_cons] at hlen
      by_cases h1 : n = 1
      · omega
      · have : ¬ (idx = n - 1 ∧ idx ≠ 0) := by
          rintro ⟨h, _⟩; omega
        simp [h1, this]

theorem computeLinesegs_eq (text : List Nat) (ch pct hz : Nat) :
    computeLinesegs text ch pct hz =
      segsOf (lineStarts ch hz text).length
        ((ch : Int) + ((ch : Int) * ((pct : Int) - 100)).tdiv 100)
        (lineStarts ch hz text) 0 := rfl

theorem segsOf_starts_countP_first (lh : Int) (aux : List Nat) :
    (segsOf (aux.length + 1) lh (0 :: aux) 0).countP isFirstSeg = 1 := by
  cases aux with
  | nil =>
    rw [segsOf, segsOf, List.countP_cons]
    simp [isFirstSeg_mk]
  | cons a rest =>
    rw [segsOf, List.countP_cons]
    rw [segsOf_countP_first_zero ((a :: rest).length + 1) lh (by simp) (a :: rest) 1
      (by omega)]
    simp [isFirstSeg_mk]

theorem segsOf_starts_countP_last (lh : Int) (aux : List Nat) :
    (segsOf (aux.length + 1) lh (0 :: aux) 0).countP isLastSeg = 1 :=
  segsOf_countP_last_one (aux.length + 1) lh (0 :: aux) 0 (by simp) (by simp)

theorem segsOf_single (lh : Int) :
    segsOf 1 lh [0] 0 = [⟨0, 0, 393216⟩] := by
  rw [segsOf, segsOf]
  simp [segFlags]

/-- C5: for every input text the line-segment estimator returns a
well-formed segment sequence: the list is nonempty, its start offsets are
strictly increasing with first offset 0, exactly one segment carries the
"first" flag and exactly one carries the "last" flag (the single segment
carrying the combined flag 393216 when there is only one), and the empty
text yields exactly one zero-length segment. -/
theorem c5_lineseg_segments_wellformed (text : List Nat) (ch pct hz : Nat) :
    computeLinesegs text ch pct hz ≠ []
    ∧ ((computeLinesegs text ch pct hz).map (fun s => s.textpos)).head? = some 0
    ∧ ((computeLinesegs text ch pct hz).map (fun s => s.textpos)).Chain' (· < ·)
    ∧ (computeLinesegs text ch pct hz).countP isFirstSeg = 1
    ∧ (computeLinesegs text ch pct hz).countP isLastSeg = 1
    ∧ ((computeLinesegs text ch pct hz).length = 1 →
        computeLinesegs text ch pct hz = [⟨0, 0, 393216⟩])
    ∧ (text = [] → computeLinesegs text ch pct hz = [⟨0, 0, 393216⟩]) := by
  have hmap : (computeLinesegs text ch pct hz).map (fun s => s.textpos)
      = lineStarts ch hz text := by
    rw [computeLinesegs_eq]; exact segsOf_map_textpos _ _ _ _
  have hchain := lineStarts_chain ch hz text
  refine ⟨?_, ?_, ?_, ?_, ?_, ?_, ?_⟩
  · intro h
    have := congrArg List.length hmap
    simp [h, lineStarts] at this
  · rw [hmap, lineStarts]; rfl
  · rw [hmap]; exact hchain
  · rw [computeLinesegs_eq, lineStarts, List.length_cons]
    exact segsOf_starts_countP_first _ _
  · rw [computeLinesegs_eq, lineStarts, List.length_cons]
    exact segsOf_starts_countP_last _ _
  · intro hlen
    rw [computeLinesegs_eq] at hlen ⊢
    rw [segsOf_length] at hlen
    rw [lineStarts] at hlen ⊢
    simp only [List.length_cons] at hlen
    have haux : lineStartsAux ch hz text 0 0 = [] := by
      cases h : lineStartsAux ch hz text 0 0 with
      | nil => rfl
      | cons x xs => rw [h] at hlen; simp at hlen
    rw [haux]
    simpa using segsOf_single _
  · intro htext
    subst htext
    rw [computeLinesegs_eq, lineStarts]
    have haux : lineStartsAux ch hz [] 0 0 = [] := rfl
    rw [haux]
    simpa using segsOf_single _

/-- Witness for C5: the empty text at the default layout constants yields
exactly the single zero-length combined-flag segment, with segment counts 1. -/
theorem c5_lineseg_segments_wellformed_witness :
    computeLinesegs [] 1000 160 42520 = [⟨0, 0, 393216⟩]
    ∧ (computeLinesegs [] 1000 160 42520).countP isFirstSeg = 1 := by
  have h := c5_lineseg_segments_wellformed [] 1000 160 42520
  exact ⟨h.2.2.2.2.2.2 rfl, h.2.2.2.1⟩

/-! ## Helper lemmas for the style-resolution cache -/

theorem cacheLookup_cons_self (cache : CharPrCache) (k : Nat × Finset Fmt) (v : Nat) :
    cacheLookup ((k, v) :: cache) k = some v := by
  simp [cacheLookup, List.find?]

theorem cacheLookup_cons_ne (cache : CharPrCache) (k k' : Nat × Finset Fmt)
    (v : Nat) (h : k ≠ k') :
    cacheLookup ((k, v) :: cache) k' = cacheLookup cache k' := by
  simp [cacheLookup, List.find?, h]

theorem cacheLookup_mem (cache : CharPrCache) (k : Nat × Finset Fmt) (v : Nat)
    (h : cacheLookup cache k = some v) : (k, v) ∈ cache := by
  unfold cacheLookup at h
  rcases hfind : cache.find? (fun e => e.1 = k) with _ | e
  · rw [hfind] at h; simp at h
  · rw [hfind] at h
    simp at h
    have hmem := List.mem_of_find?_eq_some hfind
    have hkey := List.find?_some hfind
    simp only [decide_eq_true_eq] at hkey
    have he : e = (k, v) := by
      cases e; simp_all
    rw [he] at hmem; exact hmem

theorem findCharPr_append_some (l l' : List CharPr) (i : Nat) (n : CharPr)
    (h : findCharPr l i = some n) : findCharPr (l ++ l') i = some n := by
  unfold findCharPr at h ⊢
  rw [List.find?_append, h]
  rfl

/-- C3: character-style resolution is idempotent in both modes — a second
call with the same `(base, modifiers)` pair returns the same id and leaves
the state (cache and style table) unchanged — and the empty modifier set
returns the base id with no allocation at all. -/
theorem c3_char_style_resolution_idempotent (b : Nat) (M : Finset Fmt)
    (st : BuiltinState) (rst : RefState) :
    getBuiltinCharPrId b M (getBuiltinCharPrId b M st).2 = getBuiltinCharPrId b M st
    ∧ getFormatCharPrId b M (getFormatCharPrId b M rst).2 = getFormatCharPrId b M rst
    ∧ getBuiltinCharPrId b (∅ : Finset Fmt) st = (b, st)
    ∧ getFormatCharPrId b (∅ : Finset Fmt) rst = (b, rst) := by
  refine ⟨?_, ?_, by simp [getBuiltinCharPrId], by simp [getFormatCharPrId]⟩
  · by_cases hM : M = ∅
    · simp [getBuiltinCharPrId, hM]
    · rcases h : cacheLookup st.charPrCache (b, M) with _ | v
      · have hfst : getBuiltinCharPrId b M st =
            (st.maxCharPrId + 1,
              ⟨((b, M), st.maxCharPrId + 1) :: st.charPrCache, st.maxCharPrId + 1⟩) := by
          simp [getBuiltinCharPrId, hM, h]
        rw [hfst]
        simp [getBuiltinCharPrId, hM, cacheLookup_cons_self]
      · have hfst : getBuiltinCharPrId b M st = (v, st) := by
          simp [getBuiltinCharPrId, hM, h]
        rw [hfst]
        exact hfst
  · by_cases hM : M = ∅
    · simp [getFormatCharPrId, hM]
    · rcases h : cacheLookup rst.charPrCache (b, M) with _ | v
      · rcases hbase : (findCharPr rst.charPrs b).orElse
            (fun _ => findCharPr rst.charPrs 0) with _ | baseNode
        · have hfst : getFormatCharPrId b M rst = (b, rst) := by
            simp [getFormatCharPrId, hM, h, hbase]
          rw [hfst]
          exact hfst
        · have hfst : getFormatCharPrId b M rst =
              (rst.maxCharPrId + 1,
                { charPrs := rst.charPrs ++
                    [applyFormats { baseNode with id := rst.maxCharPrId + 1 } M],
                  charPrCache := ((b, M), rst.maxCharPrId + 1) :: rst.charPrCache,
                  maxCharPrId := rst.maxCharPrId + 1 }) := by
            simp [getFormatCharPrId, hM, h, hbase]
          rw [hfst]
          simp [getFormatCharPrId, hM, cacheLookup_cons_self]
      · have hfst : getFormatCharPrId b M rst = (v, rst) := by
          simp [getFormatCharPrId, hM, h]
        rw [hfst]
        exact hfst

theorem CacheWF_insert (cache : CharPrCache) (maxId : Nat)
    (k : Nat × Finset Fmt) (h : CacheWF cache maxId) :
    CacheWF ((k, maxId + 1) :: cache) (maxId + 1) := by
  obtain ⟨hbound, hinj⟩ := h
  constructor
  · intro e he
    rcases List.mem_cons.mp he with he | he
    · rw [he]
    · exact Nat.le_succ_of_le (hbound e he)
  · intro e1 he1 e2 he2 hv
    rcases List.mem_cons.mp he1 with he1 | he1 <;>
      rcases List.mem_cons.mp he2 with he2 | he2
    · rw [he1, he2]
    · exfalso
      have := hbound e2 he2
      rw [he1] at hv
      omega
    · exfalso
      have := hbound e1 he1
      rw [he2] at hv
      omega
    · exact hinj e1 he1 e2 he2 hv

/-- The cache invariant is preserved by the built-in resolver. -/
theorem CacheWF_getBuiltinCharPrId (b : Nat) (M : Finset Fmt) (st : BuiltinState)
    (h : CacheWF st.charPrCache st.maxCharPrId) :
    CacheWF (getBuiltinCharPrId b M st).2.charPrCache
      (getBuiltinCharPrId b M st).2.maxCharPrId := by
  by_cases hM : M = ∅
  · simpa [getBuiltinCharPrId, hM] using h
  · rcases hc : cacheLookup st.charPrCache (b, M) with _ | v
    · simpa [getBuiltinCharPrId, hM, hc] using CacheWF_insert _ _ (b, M) h
    · simpa [getBuiltinCharPrId, hM, hc] using h

/-- The cache invariant is preserved by the reference-mode resolver. -/
theorem CacheWF_getFormatCharPrId (b : Nat) (M : Finset Fmt) (rst : RefState)
    (h : CacheWF rst.charPrCache rst.maxCharPrId) :
    CacheWF (getFormatCharPrId b M rst).2.charPrCache
      (getFormatCharPrId b M rst).2.maxCharPrId := by
  by_cases hM : M = ∅
  · simpa [getFormatCharPrId, hM] using h
  · rcases hc : cacheLookup rst.charPrCache (b, M) with _ | v
    · rcases hbase : (findCharPr rst.charPrs b).orElse
          (fun _ => findCharPr rst.charPrs 0) with _ | baseNode
      · simpa [getFormatCharPrId, hM, hc, hbase] using h
      · simpa [getFormatCharPrId, hM, hc, hbase] using CacheWF_insert _ _ (b, M) h
    · simpa [getFormatCharPrId, hM, hc] using h

/-- Counterexample to C4 as stated: in reference mode with a template
header whose character-style table has no charPr node at all (neither the
base id nor the fallback id 0), resolving the modifier set BOLD and then
the set BOLD-ITALIC from base 5 returns the same id 5 both times and
allocates nothing — no two distinct style IDs are produced. -/
theorem c4_no_clonable_base_counterexample :
    (getFormatCharPrId 5 {Fmt.BOLD, Fmt.ITALIC}
        (getFormatCharPrId 5 {Fmt.BOLD} emptyHeaderRefState).2).1
      = (getFormatCharPrId 5 {Fmt.BOLD} emptyHeaderRefState).1
    ∧ (getFormatCharPrId 5 {Fmt.BOLD} emptyHeaderRefState).2
      = emptyHeaderRefState := by
  constructor <;> rfl

/-- C4 (amended): in every run state whose resolution cache satisfies the
reachable-state invariant, resolving the modifier set BOLD and then the
set BOLD-ITALIC from the same base allocates two distinct style IDs —
unconditionally for the built-in resolver, and for the reference-mode
resolver provided the header's character-style table contains a clonable
entry (the base id or the fallback id 0). -/
theorem c4_distinct_format_clone_ids (b : Nat) (st : BuiltinState) (rst : RefState)
    (hst : CacheWF st.charPrCache st.maxCharPrId)
    (hrst : CacheWF rst.charPrCache rst.maxCharPrId)
    (hbase : ((findCharPr rst.charPrs b).orElse
      (fun _ => findCharPr rst.charPrs 0)).isSome) :
    (getBuiltinCharPrId b {Fmt.BOLD, Fmt.ITALIC}
        (getBuiltinCharPrId b {Fmt.BOLD} st).2).1
      ≠ (getBuiltinCharPrId b {Fmt.BOLD} st).1
    ∧ (getFormatCharPrId b {Fmt.BOLD, Fmt.ITALIC}
        (getFormatCharPrId b {Fmt.BOLD} rst).2).1
      ≠ (getFormatCharPrId b {Fmt.BOLD} rst).1 := by
  have hMne : ({Fmt.BOLD} : Finset Fmt) ≠ ∅ := by decide
  have hMne2 : ({Fmt.BOLD, Fmt.ITALIC} : Finset Fmt) ≠ ∅ := by decide
  have hMM : ({Fmt.BOLD} : Finset Fmt) ≠ {Fmt.BOLD, Fmt.ITALIC} := by decide
  have hkey : ((b, ({Fmt.BOLD} : Finset Fmt)) : Nat × Finset Fmt)
      ≠ (b, {Fmt.BOLD, Fmt.ITALIC}) := by
    intro hcontra
    exact hMM (congrArg Prod.snd hcontra)
  constructor
  · rcases h1 : cacheLookup st.charPrCache (b, {Fmt.BOLD}) with _ | v1
    · have hA : (getBuiltinCharPrId b {Fmt.BOLD} st).1 = st.maxCharPrId + 1 := by
        simp [getBuiltinCharPrId, hMne, h1]
      have hB : (getBuiltinCharPrId b {Fmt.BOLD} st).2 =
          ⟨((b, {Fmt.BOLD}), st.maxCharPrId + 1) :: st.charPrCache,
            st.maxCharPrId + 1⟩ := by
        simp [getBuiltinCharPrId, hMne, h1]
      rw [hA, hB]
      rcases h2 : cacheLookup st.charPrCache (b, {Fmt.BOLD, Fmt.ITALIC}) with _ | v2
      · have hC : (getBuiltinCharPrId b {Fmt.BOLD, Fmt.ITALIC}
            (⟨((b, {Fmt.BOLD}), st.maxCharPrId + 1) :: st.charPrCache,
              st.maxCharPrId + 1⟩ : BuiltinState)).1 = st.maxCharPrId + 1 + 1 := by
          simp [getBuiltinCharPrId, hMne2, cacheLookup_cons_ne _ _ _ _ hkey, h2]
        rw [hC]; omega
      · have hle := hst.1 _ (cacheLookup_mem _ _ _ h2)
        have hC : (getBuiltinCharPrId b {Fmt.BOLD, Fmt.ITALIC}
            (⟨((b, {Fmt.BOLD}), st.maxCharPrId + 1) :: st.charPrCache,
              st.maxCharPrId + 1⟩ : BuiltinState)).1 = v2 := by
          simp [getBuiltinCharPrId, hMne2, cacheLookup_cons_ne _ _ _ _ hkey, h2]
        rw [hC]
        simp only at hle
        omega
    · have hA : (getBuiltinCharPrId b {Fmt.BOLD} st).1 = v1 := by
        simp [getBuiltinCharPrId, hMne, h1]
      have hB : (getBuiltinCharPrId b {Fmt.BOLD} st).2 = st := by
        simp [getBuiltinCharPrId, hMne, h1]
      rw [hA, hB]
      have hmem1 := cacheLookup_mem _ _ _ h1
      have hle1 := hst.1 _ hmem1
      rcases h2 : cacheLookup st.charPrCache (b, {Fmt.BOLD, Fmt.ITALIC}) with _ | v2
      · have hC : (getBuiltinCharPrId b {Fmt.BOLD, Fmt.ITALIC} st).1 =
            st.maxCharPrId + 1 := by
          simp [getBuiltinCharPrId, hMne2, h2]
        rw [hC]
        simp only at hle1
        omega
      · have hmem2 := cacheLookup_mem _ _ _ h2
        have hC : (getBuiltinCharPrId b {Fmt.BOLD, Fmt.ITALIC} st).1 = v2 := by
          simp [getBuiltinCharPrId, hMne2, h2]
        rw [hC]
        intro hv
        exact hkey (hst.2 _ hmem1 _ hmem2 (by rw [hv]))
  · rcases hbfind : (findCharPr rst.charPrs b).orElse
        (fun _ => findCharPr rst.charPrs 0) with _ | baseNode
    · rw [hbfind] at hbase; simp at hbase
    · rcases h1 : cacheLookup rst.charPrCache (b, {Fmt.BOLD}) with _ | v1
      · have hA : (getFormatCharPrId b {Fmt.BOLD} rst).1 = rst.maxCharPrId + 1 := by
          simp [getFormatCharPrId, hMne, h1, hbfind]
        have hB : (getFormatCharPrId b {Fmt.BOLD} rst).2 =
            refAllocState rst b {Fmt.BOLD} baseNode := by
          simp [getFormatCharPrId, refAllocState, hMne, h1, hbfind]
        rw [hA, hB]
        have hcharPrs : (refAllocState rst b {Fmt.BOLD} baseNode).charPrs =
            rst.charPrs ++
              [applyFormats { baseNode with id := rst.maxCharPrId + 1 } {Fmt.BOLD}] := rfl
        have hmax : (refAllocState rst b {Fmt.BOLD} baseNode).maxCharPrId =
            rst.maxCharPrId + 1 := rfl
        rcases h2 : cacheLookup rst.charPrCache (b, {Fmt.BOLD, Fmt.ITALIC}) with _ | v2
        · have hcache : cacheLookup (refAllocState rst b {Fmt.BOLD} baseNode).charPrCache
              (b, {Fmt.BOLD, Fmt.ITALIC}) = none := by
            show cacheLookup (((b, ({Fmt.BOLD} : Finset Fmt)), rst.maxCharPrId + 1) ::
              rst.charPrCache) (b, {Fmt.BOLD, Fmt.ITALIC}) = none
            rw [cacheLookup_cons_ne _ _ _ _ hkey, h2]
          rcases hsome : (findCharPr (refAllocState rst b {Fmt.BOLD} baseNode).charPrs
              b).orElse
              (fun _ => findCharPr
                (refAllocState rst b {Fmt.BOLD} baseNode).charPrs 0) with _ | bn2
          · exfalso
            have hpair : findCharPr (refAllocState rst b {Fmt.BOLD} baseNode).charPrs b
                  = none
                ∧ findCharPr (refAllocState rst b {Fmt.BOLD} baseNode).charPrs 0
                  = none := by
              rcases hfb2 : findCharPr (refAllocState rst b {Fmt.BOLD} baseNode).charPrs b
                with _ | m
              · rw [hfb2] at hsome
                exact ⟨rfl, hsome⟩
              · rw [hfb2] at hsome
                exact Option.noConfusion hsome
            rcases hfb : findCharPr rst.charPrs b with _ | n
            · rcases hf0 : findCharPr rst.charPrs 0 with _ | n0
              · rw [hfb, hf0] at hbfind
                exact Option.noConfusion hbfind
              · have := findCharPr_append_some rst.charPrs
                  [applyFormats { baseNode with id := rst.maxCharPrId + 1 } {Fmt.BOLD}]
                  0 n0 hf0
                rw [← hcharPrs] at this
                rw [this] at hpair
                exact Option.noConfusion hpair.2
            · have := findCharPr_append_some rst.charPrs
                [applyFormats { baseNode with id := rst.maxCharPrId + 1 } {Fmt.BOLD}]
                b n hfb
              rw [← hcharPrs] at this
              rw [this] at hpair
              exact Option.noConfusion hpair.1
          · have hC : (getFormatCharPrId b {Fmt.BOLD, Fmt.ITALIC}
                (refAllocState rst b {Fmt.BOLD} baseNode)).1 =
                rst.maxCharPrId + 1 + 1 := by
              simp [getFormatCharPrId, hMne2, hcache, hsome, hmax]
            rw [hC]; omega
        · have hle := hrst.1 _ (cacheLookup_mem _ _ _ h2)
          have hcache : cacheLookup (refAllocState rst b {Fmt.BOLD} baseNode).charPrCache
              (b, {Fmt.BOLD, Fmt.ITALIC}) = some v2 := by
            show cacheLookup (((b, ({Fmt.BOLD} : Finset Fmt)), rst.maxCharPrId + 1) ::
              rst.charPrCache) (b, {Fmt.BOLD, Fmt.ITALIC}) = some v2
            rw [cacheLookup_cons_ne _ _ _ _ hkey, h2]
          have hC : (getFormatCharPrId b {Fmt.BOLD, Fmt.ITALIC}
              (refAllocState rst b {Fmt.BOLD} baseNode)).1 = v2 := by
            simp [getFormatCharPrId, hMne2, hcache]
          rw [hC]
          simp only at hle
          omega
      · have hA : (getFormatCharPrId b {Fmt.BOLD} rst).1 = v1 := by
          simp [getFormatCharPrId, hMne, h1]
        have hB : (getFormatCharPrId b {Fmt.BOLD} rst).2 = rst := by
          simp [getFormatCharPrId, hMne, h1]
        rw [hA, hB]
        have hmem1 := cacheLookup_mem _ _ _ h1
        have hle1 := hrst.1 _ hmem1
        rcases h2 : cacheLookup rst.charPrCache (b, {Fmt.BOLD, Fmt.ITALIC}) with _ | v2
        · have hC : (getFormatCharPrId b {Fmt.BOLD, Fmt.ITALIC} rst).1 =
              rst.maxCharPrId + 1 := by
            simp [getFormatCharPrId, hMne2, h2, hbfind]
          rw [hC]
          simp only at hle1
          omega
        · have hmem2 := cacheLookup_mem _ _ _ h2
          have hC : (getFormatCharPrId b {Fmt.BOLD, Fmt.ITALIC} rst).1 = v2 := by
            simp [getFormatCharPrId, hMne2, h2]
          rw [hC]
          intro hv
          exact hkey (hrst.2 _ hmem1 _ hmem2 (by rw [hv]))

/-! ## Helper lemmas for the table layout engine -/

theorem skipOccupied_le (occ : Finset (Nat × Nat)) (row : Nat) :
    ∀ (fuel col : Nat), col ≤ skipOccupied occ row col fuel := by
  intro fuel
  induction fuel with
  | zero => intro col; rw [skipOccupied]
  | succ n ih =>
    intro col
    rw [skipOccupied]
    split
    · exact Nat.le_trans (Nat.le_succ col) (ih (col + 1))
    · exact Nat.le_refl col

theorem skipOccupied_mem_of_lt (occ : Finset (Nat × Nat)) (row : Nat) :
    ∀ (fuel col x : Nat), col ≤ x → x < skipOccupied occ row col fuel →
      (row, x) ∈ occ := by
  intro fuel
  induction fuel with
  | zero => intro col x hle hlt; rw [skipOccupied] at hlt; omega
  | succ n ih =>
    intro col x hle hlt
    rw [skipOccupied] at hlt
    split at hlt
    · rcases Nat.eq_or_lt_of_le hle with heq | hlt2
      · subst heq; assumption
      · exact ih (col + 1) x hlt2 hlt
    · omega

theorem skipOccupied_not_mem (occ : Finset (Nat × Nat)) (row : Nat) :
    ∀ (fuel col : Nat),
      (occ.filter (fun p => p.1 = row ∧ col ≤ p.2)).card < fuel →
      (row, skipOccupied occ row col fuel) ∉ occ := by
  intro fuel
  induction fuel with
  | zero => intro col h; omega
  | succ n ih =>
    intro col hcard
    rw [skipOccupied]
    split
    · apply ih (col + 1)
      rename_i hmem0
      have hmem : (row, col) ∈ occ.filter (fun p => p.1 = row ∧ col ≤ p.2) := by
        rw [Finset.mem_filter]
        exact ⟨hmem0, rfl, Nat.le_refl col⟩
      have hsub : occ.filter (fun p => p.1 = row ∧ col + 1 ≤ p.2) ⊆
          (occ.filter (fun p => p.1 = row ∧ col ≤ p.2)).erase (row, col) := by
        intro p hp
        simp only [Finset.mem_filter] at hp
        simp only [Finset.mem_erase, Finset.mem_filter]
        refine ⟨?_, hp.1, hp.2.1, by omega⟩
        intro hpe
        rw [hpe] at hp
        simp only at hp
        omega
      have hle := Finset.card_le_card hsub
      rw [Finset.card_erase_of_mem hmem] at hle
      have hpos : 0 < (occ.filter (fun p => p.1 = row ∧ col ≤ p.2)).card :=
        Finset.card_pos.mpr ⟨(row, col), hmem⟩
      omega
    · assumption

theorem skipOccupied_free (occ : Finset (Nat × Nat)) (row col : Nat) :
    (row, skipOccupied occ row col (occ.card + 1)) ∉ occ :=
  skipOccupied_not_mem occ row (occ.card + 1) col
    (Nat.lt_succ_of_le (Finset.card_filter_le occ _))

theorem mem_cellRect (rowAddr colAddr : Nat) (cell : TableCell) (a b : Nat) :
    (a, b) ∈ cellRect rowAddr colAddr cell ↔
      (rowAddr ≤ a ∧ a < rowAddr + cell.rowSpan ∧
        colAddr ≤ b ∧ b < colAddr + cell.colSpan) := by
  simp only [cellRect, Finset.mem_image, Finset.mem_product, Finset.mem_range,
    Prod.exists, Prod.mk.injEq]
  constructor
  · rintro ⟨r, c, ⟨hr, hc⟩, h1, h2⟩
    omega
  · rintro ⟨h1, h2, h3, h4⟩
    exact ⟨a - rowAddr, b - colAddr, ⟨by omega, by omega⟩, by omega, by omega⟩

theorem inter_empty_of_union (A B C : Finset (Nat × Nat))
    (h : A ∩ (B ∪ C) = ∅) : A ∩ B = ∅ ∧ A ∩ C = ∅ := by
  rw [Finset.inter_union_distrib_left, Finset.union_eq_empty] at h
  exact h

theorem unionRects_cons (p : Placement) (ps : List Placement) :
    unionRects (p :: ps) = placeRect p ∪ unionRects ps := rfl

theorem unionRects_append (ps qs : List Placement) :
    unionRects (ps ++ qs) = unionRects ps ∪ unionRects qs := by
  induction ps with
  | nil => simp [unionRects]
  | cons p ps ih =>
    rw [List.cons_append, unionRects_cons, unionRects_cons, ih,
      Finset.union_assoc]

theorem mem_unionRects (ps : List Placement) (p : Placement) (hp : p ∈ ps) :
    placeRect p ⊆ unionRects ps := by
  induction ps with
  | nil => cases hp
  | cons q qs ih =>
    rcases List.mem_cons.mp hp with h | h
    · rw [h, unionRects_cons]; exact Finset.subset_union_left
    · rw [unionRects_cons]
      exact (ih h).trans Finset.subset_union_right

theorem unionRects_subset (ps : List Placement) (s : Finset (Nat × Nat))
    (h : ∀ p ∈ ps, placeRect p ⊆ s) : unionRects ps ⊆ s := by
  induction ps with
  | nil => simp [unionRects]
  | cons q qs ih =>
    rw [unionRects_cons]
    exact Finset.union_subset (h q (by simp)) (ih (fun p hp => h p (by simp [hp])))

theorem placeRowCells_snd (row : Nat) :
    ∀ (cells : List TableCell) (occ : Finset (Nat × Nat)) (col : Nat),
      (placeRowCells row occ col cells).2 =
        occ ∪ unionRects (placeRowCells row occ col cells).1 := by
  intro cells
  induction cells with
  | nil => intro occ col; simp [placeRowCells, unionRects]
  | cons cell rest ih =>
    intro occ col
    rw [placeRowCells]
    simp only
    rw [ih, unionRects_cons]
    rw [show placeRect ⟨row, skipOccupied occ row col (occ.card + 1), cell⟩ =
      cellRect row (skipOccupied occ row col (occ.card + 1)) cell from rfl]
    rw [Finset.union_assoc]

theorem checkRowCells_snd (nRows nCols row : Nat) :
    ∀ (cells : List TableCell) (occ : Finset (Nat × Nat)) (col : Nat),
      (checkRowCells nRows nCols row occ col cells).2 =
        (placeRowCells row occ col cells).2 := by
  intro cells
  induction cells with
  | nil => intro occ col; rfl
  | cons cell rest ih =>
    intro occ col
    rw [checkRowCells, placeRowCells]
    simp only
    exact ih _ _

theorem placeRows_snd :
    ∀ (rowsL : List (List TableCell)) (occ : Finset (Nat × Nat)) (row : Nat),
      (placeRows occ row rowsL).2 =
        occ ∪ unionRects (placeRows occ row rowsL).1 := by
  intro rowsL
  induction rowsL with
  | nil => intro occ row; simp [placeRows, unionRects]
  | cons cells rest ih =>
    intro occ row
    rw [placeRows]
    simp only
    rw [ih, unionRects_append, placeRowCells_snd, Finset.union_assoc]

theorem checkRowCells_sound (nRows nCols row : Nat) :
    ∀ (cells : List TableCell) (occ : Finset (Nat × Nat)) (col : Nat),
      (checkRowCells nRows nCols row occ col cells).1 = true →
      (∀ p ∈ (placeRowCells row occ col cells).1,
        placeRect p ⊆ Finset.range nRows ×ˢ Finset.range nCols)
      ∧ (∀ p ∈ (placeRowCells row occ col cells).1, placeRect p ∩ occ = ∅)
      ∧ (placeRowCells row occ col cells).1.Pairwise
          (fun p q => placeRect p ∩ placeRect q = ∅) := by
  intro cells
  induction cells with
  | nil =>
    intro occ col _
    refine ⟨?_, ?_, ?_⟩ <;> simp [placeRowCells]
  | cons cell rest ih =>
    intro occ col hchk
    rw [checkRowCells] at hchk
    simp only [Bool.and_eq_true, decide_eq_true_eq] at hchk
    obtain ⟨⟨⟨⟨⟨hrs, hcs⟩, hrb⟩, hcb⟩, hdisj⟩, hrest⟩ := hchk
    obtain ⟨ihsub, ihdisj, ihpw⟩ := ih
      (occ ∪ cellRect row (skipOccupied occ row col (occ.card + 1)) cell)
      (skipOccupied occ row col (occ.card + 1) + cell.colSpan) hrest
    rw [placeRowCells]
    simp only
    refine ⟨?_, ?_, ?_⟩
    · intro p hp
      rcases List.mem_cons.mp hp with hp | hp
      · subst hp
        intro x hx
        rcases x with ⟨a, b⟩
        rw [show placeRect ⟨row, skipOccupied occ row col (occ.card + 1), cell⟩ =
          cellRect row (skipOccupied occ row col (occ.card + 1)) cell from rfl,
          mem_cellRect] at hx
        simp only [Finset.mem_product, Finset.mem_range]
        omega
      · exact ihsub p hp
    · intro p hp
      rcases List.mem_cons.mp hp with hp | hp
      · subst hp
        rw [show placeRect ⟨row, skipOccupied occ row col (occ.card + 1), cell⟩ =
          cellRect row (skipOccupied occ row col (occ.card + 1)) cell from rfl,
          Finset.inter_comm]
        exact hdisj
      · exact (inter_empty_of_union _ _ _ (ihdisj p hp)).1
    · rw [List.pairwise_cons]
      refine ⟨?_, ihpw⟩
      intro q hq
      have h3 := (inter_empty_of_union _ _ _ (ihdisj q hq)).2
      rw [Finset.inter_comm] at h3
      exact h3

theorem checkRows_snd (nRows nCols : Nat) :
    ∀ (rowsL : List (List TableCell)) (occ : Finset (Nat × Nat)) (row : Nat),
      (checkRows nRows nCols occ row rowsL).2 = (placeRows occ row rowsL).2 := by
  intro rowsL
  induction rowsL with
  | nil => intro occ row; rfl
  | cons cells rest ih =>
    intro occ row
    rw [checkRows, placeRows]
    simp only
    rw [checkRowCells_snd]
    exact ih _ _

theorem checkRows_sound (nRows nCols : Nat) :
    ∀ (rowsL : List (List TableCell)) (occ : Finset (Nat × Nat)) (row : Nat),
      (checkRows nRows nCols occ row rowsL).1 = true →
      (∀ p ∈ (placeRows occ row rowsL).1,
        placeRect p ⊆ Finset.range nRows ×ˢ Finset.range nCols)
      ∧ (∀ p ∈ (placeRows occ row rowsL).1, placeRect p ∩ occ = ∅)
      ∧ (placeRows occ row rowsL).1.Pairwise
          (fun p q => placeRect p ∩ placeRect q = ∅)
      ∧ (∀ r c, row ≤ r → r < row + rowsL.length → c < nCols →
          (r, c) ∈ (placeRows occ row rowsL).2) := by
  intro rowsL
  induction rowsL with
  | nil =>
    intro occ row _
    refine ⟨by simp [placeRows], by simp [placeRows], by simp [placeRows], ?_⟩
    intro r c h1 h2 h3
    simp only [List.length_nil] at h2
    exact absurd h2 (by omega)
  | cons cells rest ih =>
    intro occ row hchk
    rw [checkRows] at hchk
    simp only [Bool.and_eq_true, decide_eq_true_eq, Finset.mem_range] at hchk
    obtain ⟨⟨hrowchk, hrowfull⟩, hrest⟩ := hchk
    rw [checkRowCells_snd] at hrest hrowfull
    obtain ⟨hsub1, hdisj1, hpw1⟩ := checkRowCells_sound nRows nCols row cells occ 0 hrowchk
    obtain ⟨ihsub, ihdisj, ihpw, ihcover⟩ :=
      ih (placeRowCells row occ 0 cells).2 (row + 1) hrest
    rw [placeRows]
    simp only
    refine ⟨?_, ?_, ?_, ?_⟩
    · intro p hp
      rcases List.mem_append.mp hp with hp | hp
      · exact hsub1 p hp
      · exact ihsub p hp
    · intro p hp
      rcases List.mem_append.mp hp with hp | hp
      · exact hdisj1 p hp
      · have h2 := ihdisj p hp
        rw [placeRowCells_snd] at h2
        exact (inter_empty_of_union _ _ _ h2).1
    · rw [List.pairwise_append]
      refine ⟨hpw1, ihpw, ?_⟩
      intro p hp q hq
      have h2 := ihdisj q hq
      rw [placeRowCells_snd] at h2
      have h3 := (inter_empty_of_union _ _ _ h2).2
      rw [Finset.inter_comm] at h3
      have h5 : placeRect p ∩ placeRect q ⊆
          unionRects (placeRowCells row occ 0 cells).1 ∩ placeRect q :=
        Finset.inter_subset_inter (mem_unionRects _ p hp) (Finset.Subset.refl _)
      rw [h3] at h5
      exact Finset.subset_empty.mp h5
    · intro r c h1 h2 h3
      rcases Nat.eq_or_lt_of_le h1 with heq | hlt
      · subst heq
        have hmem := hrowfull c h3
        rw [placeRows_snd]
        exact Finset.mem_union_left _ hmem
      · simp only [List.length_cons] at h2
        exact ihcover r c hlt (by omega) h3

/-- Counterexample to C2 as stated: on the grid whose first row declares a
1x1 cell and a 2x1 row-spanning cell and whose second row declares a 1x2
column-spanning cell, the engine places the second-row cell at column 0
with a rectangle that also claims coordinate (1, 1) — already claimed by
the row-spanning cell — so two distinct declared cells claim the same
coordinate. -/
theorem c2_overlap_counterexample :
    ¬ (placeTable overlapRows).1.Pairwise
        (fun p q => placeRect p ∩ placeRect q = ∅) := by
  decide

/-- C2 (amended): for every declared grid that is well-formed for
`nRows x nCols` — positive spans, every placed rectangle inside the grid
and free of collisions, every row completely filled — no two distinct
declared cells claim a common coordinate, and the union of all claimed
coordinates exactly covers the `nRows x nCols` grid. -/
theorem c2_wellformed_table_disjoint_cover (nRows nCols : Nat)
    (rows : List (List TableCell))
    (hwf : wellFormedTable nRows nCols rows = true) :
    (placeTable rows).1.Pairwise (fun p q => placeRect p ∩ placeRect q = ∅)
    ∧ unionRects (placeTable rows).1 =
        Finset.range nRows ×ˢ Finset.range nCols := by
  unfold wellFormedTable at hwf
  simp only [Bool.and_eq_true, decide_eq_true_eq] at hwf
  obtain ⟨hlen, hchk⟩ := hwf
  obtain ⟨hsub, hdisj, hpw, hcover⟩ := checkRows_sound nRows nCols rows ∅ 0 hchk
  refine ⟨hpw, ?_⟩
  apply Finset.Subset.antisymm
  · exact unionRects_subset _ _ hsub
  · intro x hx
    rcases x with ⟨r, c⟩
    simp only [Finset.mem_product, Finset.mem_range] at hx
    have hm := hcover r c (Nat.zero_le r) (by omega) hx.2
    rw [placeRows_snd] at hm
    simpa [placeTable] using hm

/-- Witness for the amended C2 at the spec's scenario grid: a 2x2 table
whose first row is a single colSpan-2 cell and whose second row has two
normal cells is well-formed, so its placements are pairwise disjoint and
tile the 2x2 grid. -/
theorem c2_wellformed_table_disjoint_cover_witness :
    wellFormedTable 2 2 specScenarioRows = true
    ∧ ((placeTable specScenarioRows).1.Pairwise
        (fun p q => placeRect p ∩ placeRect q = ∅)
      ∧ unionRects (placeTable specScenarioRows).1 =
          Finset.range 2 ×ˢ Finset.range 2) :=
  ⟨by decide, c2_wellformed_table_disjoint_cover 2 2 specScenarioRows (by decide)⟩

/-- C1 (code bug): in reference mode the inline-code branch of
`_process_inlines` emits the fixed charPrIDRef 10 irrespective of the
template, while `_update_reference_header` only refreshes item counts and
never adds a charPr with id 10; with a template whose charPr table holds
the ids 0, 1, 2 a document containing an inline code span therefore emits
a charPrIDRef that does not exist in the finalized header's
character-style table, violating the stated invariant. -/
theorem c1_code_span_dangling_reference :
    (processInlinesRef 0 ∅ threeCharPrRefState [Inline.code "x"]).1
      = [CODE_CHAR_PR_ID]
    ∧ refHeaderFinalCharPrIds
        (processInlinesRef 0 ∅ threeCharPrRefState [Inline.code "x"]).2
      = [0, 1, 2]
    ∧ CODE_CHAR_PR_ID ∉ refHeaderFinalCharPrIds
        (processInlinesRef 0 ∅ threeCharPrRefState [Inline.code "x"]).2 := by
  refine ⟨rfl, rfl, ?_⟩
  decide

/-- C6: whenever reference-header parsing fails — at any stage of the
staged parse — the converter ends up with a warning logged, reference mode
cleared, and exactly the built-in default style mappings (normal ids "0",
id high-water mark 10, empty dynamic style map); the conversion continues
since loading is total. -/
theorem c6_template_parse_failure_falls_back (h : HeaderXml) (e : String)
    (herr : parseReferenceHeader h = .error e) :
    loadHeaderStyles h = initDefaultStylesSetup true
    ∧ (loadHeaderStyles h).useReference = false
    ∧ (loadHeaderStyles h).warned = true
    ∧ (loadHeaderStyles h).normalStyleId = "0"
    ∧ (loadHeaderStyles h).normalParaPrId = "0"
    ∧ (loadHeaderStyles h).normalCharPrId = "0"
    ∧ (loadHeaderStyles h).maxCharPrId = 10
    ∧ (loadHeaderStyles h).dynamicStyleMap = [] := by
  have hload : loadHeaderStyles h = initDefaultStylesSetup true := by
    unfold loadHeaderStyles
    rw [herr]
  rw [hload]
  refine ⟨rfl, rfl, rfl, rfl, rfl, rfl, ?_, rfl⟩
  decide

/-- Witness for C6: a header whose charPr id attribute is the non-numeric
string "abc" makes the parse fail, and the loaded configuration is the
built-in default one. -/
theorem c6_template_parse_failure_falls_back_witness :
    parseReferenceHeader badIdHeader = .error "invalid literal for int"
    ∧ loadHeaderStyles badIdHeader = initDefaultStylesSetup true :=
  ⟨rfl, (c6_template_parse_failure_falls_back badIdHeader
    "invalid literal for int" rfl).1⟩

/-- C10: when a reference path is supplied but no file exists at it, the
converter substitutes the packaged blank template as the archive source
while staying in reference mode, and style discovery parses the blank
template's header rather than installing the built-in defaults. -/
theorem c10_missing_reference_uses_blank_template (p : String)
    (existingPaths : List String) (headerOf : String → HeaderXml)
    (hmiss : existingPaths.contains p = false) :
    (chooseTemplate (some p) existingPaths).templatePath = builtinBlankPath
    ∧ (chooseTemplate (some p) existingPaths).useReference = true
    ∧ loadTemplateBranch (chooseTemplate (some p) existingPaths) headerOf =
        .parseReference (headerOf builtinBlankPath) := by
  have hpath : (chooseTemplate (some p) existingPaths).templatePath =
      builtinBlankPath := by
    show (if existingPaths.contains p = true then p else builtinBlankPath) =
      builtinBlankPath
    rw [hmiss]
    simp
  refine ⟨hpath, rfl, ?_⟩
  unfold loadTemplateBranch
  rw [hpath]
  rfl

/-- Witness for C10 at a concrete nonexistent path and empty filesystem. -/
theorem c10_missing_reference_uses_blank_template_witness :
    (chooseTemplate (some "missing.hwpx") []).templatePath = builtinBlankPath
    ∧ (chooseTemplate (some "missing.hwpx") []).useReference = true :=
  ⟨(c10_missing_reference_uses_blank_template "missing.hwpx" []
      (fun _ => HeaderXml.malformed) rfl).1,
    (c10_missing_reference_uses_blank_template "missing.hwpx" []
      (fun _ => HeaderXml.malformed) rfl).2.1⟩

/-! ## Helper lemmas for image embedding and archive finalization -/

theorem embedImages_cons (existingPaths : List String) (img : ImageRec)
    (rest : List ImageRec) :
    embedImages existingPaths (img :: rest) =
      match img.resolvedPath with
      | some r =>
        if existingPaths.contains r then
          (("BinData/" ++ img.binId ++ "." ++ img.ext) ::
            (embedImages existingPaths rest).1,
            (embedImages existingPaths rest).2)
        else ((embedImages existingPaths rest).1,
          img.path :: (embedImages existingPaths rest).2)
      | none => ((embedImages existingPaths rest).1,
          img.path :: (embedImages existingPaths rest).2) := rfl

theorem embedImages_append (existingPaths : List String)
    (l1 l2 : List ImageRec) :
    embedImages existingPaths (l1 ++ l2) =
      ((embedImages existingPaths l1).1 ++ (embedImages existingPaths l2).1,
        (embedImages existingPaths l1).2 ++ (embedImages existingPaths l2).2) := by
  induction l1 with
  | nil => simp [embedImages]
  | cons img rest ih =>
    rw [List.cons_append, embedImages_cons, embedImages_cons, ih]
    rcases img.resolvedPath with _ | r
    · rfl
    · by_cases hc : r ∈ existingPaths
      · simp [hc]
      · simp [hc]

theorem fsLookup_fsWrite_self (fs : FileSys) (p : String) (a : Archive) :
    fsLookup (fsWrite fs p a) p = some a := by
  unfold fsLookup fsWrite
  rw [List.find?_cons_of_pos _ (by simp)]
  rfl

theorem fsLookup_fsWrite_ne (fs : FileSys) (p q : String) (a : Archive)
    (h : q ≠ p) :
    fsLookup (fsWrite fs p a) q = fsLookup fs q := by
  unfold fsLookup fsWrite
  have hne : ¬ (((p, a) : String × Archive).1 = q) := fun hc => h hc.symm
  rw [List.find?_cons_of_neg _ (by simpa using hne)]

theorem fsLookup_fsErase_self (fs : FileSys) (p : String) :
    fsLookup (fsErase fs p) p = none := by
  unfold fsLookup fsErase
  have hfind : (fs.filter (fun e => ¬ e.1 = p)).find? (fun e => e.1 = p) = none := by
    rw [List.find?_eq_none]
    intro x hx
    have hmem := List.mem_filter.mp hx
    simp only [decide_eq_true_eq] at hmem ⊢
    exact hmem.2
  rw [hfind]
  rfl

theorem fsLookup_fsErase_ne (fs : FileSys) (p q : String) (h : q ≠ p) :
    fsLookup (fsErase fs p) q = fsLookup fs q := by
  induction fs with
  | nil => rfl
  | cons e rest ih =>
    unfold fsErase at ih ⊢
    by_cases hep : e.1 = p
    · rw [List.filter_cons_of_neg (by simp [hep])]
      have hneq : ¬ e.1 = q := by
        rw [hep]
        exact fun hc => h hc.symm
      unfold fsLookup
      rw [List.find?_cons_of_neg _ (by simpa using hneq)]
      exact ih
    · rw [List.filter_cons_of_pos (by simp [hep])]
      by_cases heq : e.1 = q
      · unfold fsLookup
        rw [List.find?_cons_of_pos _ (by simp [heq]),
          List.find?_cons_of_pos _ (by simp [heq])]
      · unfold fsLookup
        rw [List.find?_cons_of_neg _ (by simp [heq]),
          List.find?_cons_of_neg _ (by simp [heq])]
        exact ih

theorem fsErase_fsWrite_self (fs : FileSys) (p : String) (a : Archive) :
    fsErase (fsWrite fs p a) p = fsErase fs p := by
  unfold fsErase fsWrite
  rw [List.filter_cons_of_neg (by simp)]

theorem buildArchive_ok_snd :
    ∀ (entries : List (String × Except String String)) (arch : Archive),
      (buildArchive entries).1 = .ok arch → (buildArchive entries).2 = arch := by
  intro entries
  induction entries with
  | nil =>
    intro arch h
    exact Except.ok.inj h
  | cons entry rest ih =>
    intro arch h
    rcases entry with ⟨n, c⟩
    rcases c with eMsg | c
    · exact Except.noConfusion h
    · have h2 : (buildArchive rest).1.map (fun a => (n, c) :: a) =
          Except.ok arch := h
      rcases hr : (buildArchive rest).1 with e3 | a3
      · rw [hr] at h2
        exact Except.noConfusion h2
      · rw [hr] at h2
        have h3 : (n, c) :: a3 = arch := Except.ok.inj h2
        show (n, c) :: (buildArchive rest).2 = arch
        rw [ih a3 hr]
        exact h3

/-- C7: an image whose source path cannot be resolved still yields a
well-formed embedded-object node whose dimensions are exactly the
requested-or-default ones (computed with no pixel information, clamped to
the page text width like every image; with no requested attributes this is
the 8504 x 8504 default), its record keeps no resolved path, and at
archive-writing time it contributes a warning and no BinData entry, in
whatever image list it appears. -/
theorem c7_unresolved_image_defaults_no_binary
    (existingPaths : List String) (inputDir cwd targetUrl : String)
    (wParsed hParsed : Option Nat) (readPixels : String → Option (Nat × Nat))
    (binId : String)
    (hres : resolveImagePath existingPaths inputDir cwd targetUrl = none) :
    (handleImage existingPaths inputDir cwd targetUrl wParsed hParsed
        readPixels binId).1
      = ⟨(computeImageDims wParsed hParsed none).1,
          (computeImageDims wParsed hParsed none).2, binId⟩
    ∧ (wParsed = none → hParsed = none →
        (handleImage existingPaths inputDir cwd targetUrl wParsed hParsed
          readPixels binId).1 = ⟨8504, 8504, binId⟩)
    ∧ (handleImage existingPaths inputDir cwd targetUrl wParsed hParsed
        readPixels binId).2.resolvedPath = none
    ∧ (∀ l1 l2 : List ImageRec,
        (embedImages existingPaths (l1 ++
            (handleImage existingPaths inputDir cwd targetUrl wParsed hParsed
              readPixels binId).2 :: l2)).1
          = (embedImages existingPaths l1).1 ++ (embedImages existingPaths l2).1
        ∧ targetUrl ∈ (embedImages existingPaths (l1 ++
            (handleImage existingPaths inputDir cwd targetUrl wParsed hParsed
              readPixels binId).2 :: l2)).2) := by
  have hrec : (handleImage existingPaths inputDir cwd targetUrl wParsed hParsed
      readPixels binId).2 =
      ⟨binId, targetUrl, none, imageExt targetUrl⟩ := by
    unfold handleImage
    rw [hres]
  refine ⟨?_, ?_, ?_, ?_⟩
  · unfold handleImage
    rw [hres]
  · intro hw hh
    unfold handleImage
    rw [hres, hw, hh]
    rfl
  · rw [hrec]
  · intro l1 l2
    rw [hrec, embedImages_append, embedImages_cons]
    constructor
    · rfl
    · simp

/-- Witness for C7: a missing image on an empty filesystem, with no
requested dimensions, yields the default-size node, no resolved path, and
a warning with no BinData entry. -/
theorem c7_unresolved_image_defaults_no_binary_witness :
    (handleImage [] "in" "/cwd" "missing.png" none none (fun _ => none)
        "img_1").1 = ⟨8504, 8504, "img_1"⟩
    ∧ (handleImage [] "in" "/cwd" "missing.png" none none (fun _ => none)
        "img_1").2.resolvedPath = none
    ∧ (embedImages [] ([] ++ (handleImage [] "in" "/cwd" "missing.png" none none
        (fun _ => none) "img_1").2 :: [])).1 = [] ++ []
    ∧ "missing.png" ∈ (embedImages [] ([] ++ (handleImage [] "in" "/cwd"
        "missing.png" none none (fun _ => none) "img_1").2 :: [])).2 := by
  have h := c7_unresolved_image_defaults_no_binary [] "in" "/cwd" "missing.png"
    none none (fun _ => none) "img_1" rfl
  refine ⟨h.2.1 rfl rfl, h.2.2.1, ?_, (h.2.2.2 [] []).2⟩
  have h4 := (h.2.2.2 [] []).1
  simpa using h4

/-- C8: for a readable image with only a width attribute, the computed
dimensions preserve the pixel aspect ratio within integer rounding: the
final width is the requested width clamped to the page text width, the
final height never exceeds the exact proportional height, and it falls
short of it by less than two rounding units (one unit from the aspect
division, one more when the clamp rescales). -/
theorem c8_width_only_preserves_aspect (w pxW pxH : Nat) :
    (computeImageDims (some w) none (some (pxW, pxH))).1 = min w PAGE_TEXT_WIDTH
    ∧ (computeImageDims (some w) none (some (pxW, pxH))).2 * max pxW 1 ≤
        (computeImageDims (some w) none (some (pxW, pxH))).1 * pxH
    ∧ (computeImageDims (some w) none (some (pxW, pxH))).1 * pxH <
        ((computeImageDims (some w) none (some (pxW, pxH))).2 + 2) * max pxW 1 := by
  have hpw : 0 < max pxW 1 := by omega
  by_cases hcl : PAGE_TEXT_WIDTH < w
  · have hdims : computeImageDims (some w) none (some (pxW, pxH)) =
        (PAGE_TEXT_WIDTH,
          (w * pxH / max pxW 1) * PAGE_TEXT_WIDTH / w) := by
      unfold computeImageDims
      simp [hcl]
    rw [hdims]
    have hw0 : 0 < w := by
      have : (0 : Nat) < PAGE_TEXT_WIDTH := by decide
      omega
    have hP0 : 0 < PAGE_TEXT_WIDTH := by decide
    refine ⟨by simp [Nat.min_eq_right (Nat.le_of_lt hcl)], ?_, ?_⟩
    · have ha : ((w * pxH / max pxW 1) * PAGE_TEXT_WIDTH / w) * w ≤
          (w * pxH / max pxW 1) * PAGE_TEXT_WIDTH :=
        Nat.div_mul_le_self _ _
      have hb : (w * pxH / max pxW 1) * max pxW 1 ≤ w * pxH :=
        Nat.div_mul_le_self _ _
      have step : ((w * pxH / max pxW 1) * PAGE_TEXT_WIDTH / w) * max pxW 1 * w ≤
          PAGE_TEXT_WIDTH * pxH * w := by
        calc ((w * pxH / max pxW 1) * PAGE_TEXT_WIDTH / w) * max pxW 1 * w
            = ((w * pxH / max pxW 1) * PAGE_TEXT_WIDTH / w) * w * max pxW 1 := by
              ring
          _ ≤ (w * pxH / max pxW 1) * PAGE_TEXT_WIDTH * max pxW 1 :=
              Nat.mul_le_mul_right _ ha
          _ = (w * pxH / max pxW 1) * max pxW 1 * PAGE_TEXT_WIDTH := by ring
          _ ≤ w * pxH * PAGE_TEXT_WIDTH := Nat.mul_le_mul_right _ hb
          _ = PAGE_TEXT_WIDTH * pxH * w := by ring
      exact Nat.le_of_mul_le_mul_right step hw0
    · have h1 : w * pxH < (w * pxH / max pxW 1 + 1) * max pxW 1 :=
        (Nat.div_lt_iff_lt_mul hpw).mp (Nat.lt_succ_self _)
      have h2 : (w * pxH / max pxW 1) * PAGE_TEXT_WIDTH <
          ((w * pxH / max pxW 1) * PAGE_TEXT_WIDTH / w + 1) * w :=
        (Nat.div_lt_iff_lt_mul hw0).mp (Nat.lt_succ_self _)
      have step : PAGE_TEXT_WIDTH * pxH * w <
          ((w * pxH / max pxW 1) * PAGE_TEXT_WIDTH / w + 2) * max pxW 1 * w := by
        calc PAGE_TEXT_WIDTH * pxH * w = (w * pxH) * PAGE_TEXT_WIDTH := by ring
          _ < ((w * pxH / max pxW 1 + 1) * max pxW 1) * PAGE_TEXT_WIDTH :=
              (Nat.mul_lt_mul_right hP0).mpr h1
          _ = ((w * pxH / max pxW 1) * PAGE_TEXT_WIDTH + PAGE_TEXT_WIDTH) *
              max pxW 1 := by ring
          _ < (((w * pxH / max pxW 1) * PAGE_TEXT_WIDTH / w + 1) * w + w) *
              max pxW 1 :=
              (Nat.mul_lt_mul_right hpw).mpr (Nat.add_lt_add h2 hcl)
          _ = ((w * pxH / max pxW 1) * PAGE_TEXT_WIDTH / w + 2) * max pxW 1 * w := by
              ring
      exact Nat.lt_of_mul_lt_mul_right step
  · have hdims : computeImageDims (some w) none (some (pxW, pxH)) =
        (w, w * pxH / max pxW 1) := by
      unfold computeImageDims
      simp [hcl]
    rw [hdims]
    refine ⟨by simp [Nat.min_eq_left (Nat.le_of_not_lt hcl)], ?_, ?_⟩
    · exact Nat.div_mul_le_self _ _
    · show w * pxH < (w * pxH / max pxW 1 + 2) * max pxW 1
      have h1 : w * pxH < (w * pxH / max pxW 1 + 1) * max pxW 1 :=
        (Nat.div_lt_iff_lt_mul hpw).mp (Nat.lt_succ_self _)
      have h2 : (w * pxH / max pxW 1 + 1) * max pxW 1 ≤
          (w * pxH / max pxW 1 + 2) * max pxW 1 :=
        Nat.mul_le_mul_right _ (by omega)
      omega

/-- C9: archive finalization is all-or-nothing.  If any entry write
fails, the failure is surfaced to the caller, the temporary file is
deleted and the destination path is left exactly as it was (a prior
output there is never corrupted).  Only when every entry has been written
successfully is the complete archive moved into place at the destination,
the temporary file disappearing. -/
theorem c9_write_failure_atomic (fs : FileSys) (tmpPath outputPath : String)
    (entries : List (String × Except String String))
    (hne : tmpPath ≠ outputPath) :
    (∀ e, (buildArchive entries).1 = .error e →
      (writeHwpx fs tmpPath outputPath entries).1 = .error e
      ∧ fsLookup (writeHwpx fs tmpPath outputPath entries).2 outputPath =
          fsLookup fs outputPath
      ∧ fsLookup (writeHwpx fs tmpPath outputPath entries).2 tmpPath = none)
    ∧ (∀ arch, (buildArchive entries).1 = .ok arch →
      (writeHwpx fs tmpPath outputPath entries).1 = .ok ()
      ∧ fsLookup (writeHwpx fs tmpPath outputPath entries).2 outputPath =
          some arch
      ∧ fsLookup (writeHwpx fs tmpPath outputPath entries).2 tmpPath = none) := by
  constructor
  · intro e herr
    have hw : writeHwpx fs tmpPath outputPath entries =
        (.error e,
          fsErase (fsWrite fs tmpPath (buildArchive entries).2) tmpPath) := by
      simp only [writeHwpx, herr]
    rw [hw]
    refine ⟨rfl, ?_, ?_⟩
    · rw [fsErase_fsWrite_self]
      exact fsLookup_fsErase_ne fs tmpPath outputPath (fun hc => hne hc.symm)
    · exact fsLookup_fsErase_self _ _
  · intro arch hok
    have harch := buildArchive_ok_snd entries arch hok
    have hw : writeHwpx fs tmpPath outputPath entries =
        (.ok (),
          fsMove (fsWrite fs tmpPath (buildArchive entries).2)
            tmpPath outputPath) := by
      simp only [writeHwpx, hok]
    rw [hw]
    have hmove : fsMove (fsWrite fs tmpPath (buildArchive entries).2)
        tmpPath outputPath =
        fsWrite (fsErase (fsWrite fs tmpPath (buildArchive entries).2) tmpPath)
          outputPath (buildArchive entries).2 := by
      unfold fsMove
      rw [fsLookup_fsWrite_self]
    rw [hmove, harch]
    refine ⟨rfl, fsLookup_fsWrite_self _ _ _, ?_⟩
    rw [fsLookup_fsWrite_ne _ _ _ _ hne, fsErase_fsWrite_self]
    exact fsLookup_fsErase_self _ _

/-- Witness for C9: with a prior output at the destination, a failing
entry stream leaves the destination's old content in place, removes the
temporary file and surfaces the error; a succeeding stream installs the
full archive. -/
theorem c9_write_failure_atomic_witness :
    (writeHwpx [("out.hwpx", [("old", "bytes")])] "tmp.hwpx" "out.hwpx"
        [("Contents/header.xml", .ok "h"), ("BinData/x.png", .error "io error")]).1
      = .error "io error"
    ∧ fsLookup (writeHwpx [("out.hwpx", [("old", "bytes")])] "tmp.hwpx" "out.hwpx"
        [("Contents/header.xml", .ok "h"), ("BinData/x.png", .error "io error")]).2
          "out.hwpx"
      = fsLookup [("out.hwpx", [("old", "bytes")])] "out.hwpx"
    ∧ fsLookup (writeHwpx [("out.hwpx", [("old", "bytes")])] "tmp.hwpx" "out.hwpx"
        [("Contents/header.xml", .ok "h"), ("BinData/x.png", .error "io error")]).2
          "tmp.hwpx"
      = none := by
  have h := (c9_write_failure_atomic [("out.hwpx", [("old", "bytes")])]
    "tmp.hwpx" "out.hwpx"
    [("Contents/header.xml", .ok "h"), ("BinData/x.png", .error "io error")]
    (by decide)).1 "io error" rfl
  exact h

/-- Witness for the amended C4 at concrete states: a fresh built-in state
and a one-entry reference header. -/
theorem c4_distinct_format_clone_ids_witness :
    (getBuiltinCharPrId 0 {Fmt.BOLD, Fmt.ITALIC}
        (getBuiltinCharPrId 0 {Fmt.BOLD} freshBuiltinState).2).1
      ≠ (getBuiltinCharPrId 0 {Fmt.BOLD} freshBuiltinState).1
    ∧ (getFormatCharPrId 0 {Fmt.BOLD, Fmt.ITALIC}
        (getFormatCharPrId 0 {Fmt.BOLD} smallRefState).2).1
      ≠ (getFormatCharPrId 0 {Fmt.BOLD} smallRefState).1 :=
  c4_distinct_format_clone_ids 0 freshBuiltinState smallRefState
    (by constructor <;> simp [freshBuiltinState, CacheWF])
    (by constructor <;> simp [smallRefState, CacheWF])
    (by decide)

end PandocHwpx
